import Mathlib

/-!
Verification development for the recurring-task module
(`concept_recurrent_tsk/project_task.py`).

The module schedules recurring project tasks: a pure occurrence
calculator (`_get_next_occurrence_date`, `_compute_first_occurrence_date`),
a rule validator (`_is_recurrence_valid`), a bounded preview generator
(the date-collection loop of `_compute_recurrence_message`), and a
claim-and-generate cron engine (`_cron_create_recurring_tasks`).

Dates are whole proleptic-Gregorian calendar dates, exactly as Python's
`datetime.date`: a (year, month, day) triple with 1-based months and days.
`Date.toN` is the day count since 0001-01-01 (Python's `toordinal() - 1`),
so `Date.weekday = toN % 7` gives Python's convention Monday = 0.
-/

namespace Recur

structure Date where
  year : Nat
  month : Nat
  day : Nat
deriving DecidableEq, Repr

/-- Gregorian leap-year rule, as in Python's `calendar.isleap`. -/
def isLeap (y : Nat) : Bool :=
  (y % 4 == 0 && y % 100 != 0) || (y % 400 == 0)

def leapAdj (y : Nat) : Nat := if isLeap y then 1 else 0

def daysInMonth (y m : Nat) : Nat :=
  if m = 2 then (if isLeap y then 29 else 28)
  else if m = 4 ∨ m = 6 ∨ m = 9 ∨ m = 11 then 30
  else 31

/-- A (year, month, day) triple denotes a real calendar date. -/
def Date.Valid (d : Date) : Prop :=
  1 ≤ d.year ∧ 1 ≤ d.month ∧ d.month ≤ 12 ∧ 1 ≤ d.day ∧
    d.day ≤ daysInMonth d.year d.month

instance (d : Date) : Decidable d.Valid := by
  unfold Date.Valid; infer_instance

/-- Days in months `1 .. m-1` of year `y` (cumulative month offsets). -/
def daysBeforeMonth (y m : Nat) : Nat :=
  match m with
  | 1 => 0
  | 2 => 31
  | 3 => 59 + leapAdj y
  | 4 => 90 + leapAdj y
  | 5 => 120 + leapAdj y
  | 6 => 151 + leapAdj y
  | 7 => 181 + leapAdj y
  | 8 => 212 + leapAdj y
  | 9 => 243 + leapAdj y
  | 10 => 273 + leapAdj y
  | 11 => 304 + leapAdj y
  | _ => 334 + leapAdj y

def daysInYear (y : Nat) : Nat := 365 + leapAdj y

/-- Days in years `1 .. y-1`. -/
def daysBeforeYear (y : Nat) : Nat :=
  (y - 1) * 365 + (y - 1) / 4 + (y - 1) / 400 - (y - 1) / 100

/-- Day number: days since 0001-01-01 (= Python `toordinal() - 1`). -/
def Date.toN (d : Date) : Nat :=
  daysBeforeYear d.year + daysBeforeMonth d.year d.month + (d.day - 1)

/-- Python `date.weekday()`: Monday = 0 .. Sunday = 6. -/
def Date.weekday (d : Date) : Nat := d.toN % 7

lemma daysInMonth_pos (y m : Nat) : 1 ≤ daysInMonth y m := by
  unfold daysInMonth
  split
  · split <;> omega
  · split <;> omega

lemma isLeap_iff (y : Nat) :
    isLeap y = true ↔ ((y % 4 = 0 ∧ y % 100 ≠ 0) ∨ y % 400 = 0) := by
  simp [isLeap, Bool.or_eq_true, Bool.and_eq_true, beq_iff_eq, bne_iff_ne]

lemma leapAdj_true {y : Nat} (h : isLeap y = true) : leapAdj y = 1 := by
  simp [leapAdj, h]

lemma leapAdj_false {y : Nat} (h : isLeap y = false) : leapAdj y = 0 := by
  simp [leapAdj, h]

set_option maxHeartbeats 1000000 in
lemma daysBeforeYear_succ (y : Nat) (hy : 1 ≤ y) :
    daysBeforeYear (y + 1) = daysBeforeYear y + daysInYear y := by
  have hiff := isLeap_iff y
  cases h : isLeap y
  · rw [h] at hiff
    have h' : ¬ ((y % 4 = 0 ∧ y % 100 ≠ 0) ∨ y % 400 = 0) := by
      intro hp
      exact absurd (hiff.mpr hp) (by simp)
    unfold daysInYear
    rw [leapAdj_false h]
    unfold daysBeforeYear
    omega
  · rw [h] at hiff
    have h' : (y % 4 = 0 ∧ y % 100 ≠ 0) ∨ y % 400 = 0 := hiff.mp rfl
    unfold daysInYear
    rw [leapAdj_true h]
    unfold daysBeforeYear
    omega

lemma daysBeforeYear_mono {u v : Nat} (hu : 1 ≤ u) (h : u ≤ v) :
    daysBeforeYear u ≤ daysBeforeYear v := by
  obtain ⟨k, rfl⟩ : ∃ k, v = u + k := ⟨v - u, by omega⟩
  clear h
  induction k with
  | zero => exact le_refl _
  | succ n ih =>
      have hs := daysBeforeYear_succ (u + n) (by omega)
      rw [show u + (n + 1) = (u + n) + 1 from rfl]
      omega

lemma daysBeforeMonth_step (y m : Nat) (h1 : 1 ≤ m) (h2 : m ≤ 11) :
    daysBeforeMonth y (m + 1) = daysBeforeMonth y m + daysInMonth y m := by
  interval_cases m <;>
    cases h : isLeap y <;>
    simp [daysBeforeMonth, daysInMonth, leapAdj, h]

lemma daysBeforeMonth_mono (y : Nat) {m m' : Nat} (h1 : 1 ≤ m)
    (hlt : m < m') (h2 : m' ≤ 12) :
    daysBeforeMonth y m + daysInMonth y m ≤ daysBeforeMonth y m' := by
  obtain ⟨k, rfl⟩ : ∃ k, m' = m + (k + 1) := ⟨m' - m - 1, by omega⟩
  clear hlt
  induction k with
  | zero => exact le_of_eq (daysBeforeMonth_step y m h1 (by omega)).symm
  | succ n ih =>
      have hstep := daysBeforeMonth_step y (m + (n + 1)) (by omega) (by omega)
      have := ih (by omega)
      rw [show m + (n + 1 + 1) = (m + (n + 1)) + 1 from rfl]
      omega

lemma daysBeforeMonth_add_le (y m : Nat) (h1 : 1 ≤ m) (h2 : m ≤ 12) :
    daysBeforeMonth y m + daysInMonth y m ≤ daysInYear y := by
  have h12 : daysBeforeMonth y 12 = 334 + leapAdj y := rfl
  have hd12 : daysInMonth y 12 = 31 := by simp [daysInMonth]
  have hdy : daysInYear y = 365 + leapAdj y := rfl
  rcases Nat.lt_or_ge m 12 with hm | hm
  · have := daysBeforeMonth_mono y h1 hm (le_refl 12)
    omega
  · have : m = 12 := by omega
    subst this
    omega

/-- `toN` is strictly monotone with respect to lexicographic (y, m, d)
order on valid dates; hence it orders dates exactly as the calendar does. -/
lemma Date.toN_lt_of_lex {a b : Date} (ha : a.Valid) (hb : b.Valid)
    (h : a.year < b.year ∨
      (a.year = b.year ∧ (a.month < b.month ∨
        (a.month = b.month ∧ a.day < b.day)))) :
    a.toN < b.toN := by
  obtain ⟨y1, m1, d1⟩ := a
  obtain ⟨y2, m2, d2⟩ := b
  obtain ⟨ha1, ha2, ha3, ha4, ha5⟩ := ha
  obtain ⟨hb1, hb2, hb3, hb4, hb5⟩ := hb
  simp only [Date.toN] at *
  rcases h with hy | ⟨hy, hm | ⟨hm, hd⟩⟩
  · have h1 := daysBeforeMonth_add_le y1 m1 ha2 ha3
    have h2 := daysBeforeYear_succ y1 ha1
    have h3 := daysBeforeYear_mono (show 1 ≤ y1 + 1 by omega)
      (show y1 + 1 ≤ y2 by omega)
    omega
  · subst hy
    have h1 := daysBeforeMonth_mono y1 ha2 hm hb3
    omega
  · subst hy
    subst hm
    omega

-- Successor of a calendar date.
def Date.nextDay (dt : Date) : Date :=
  if dt.day < daysInMonth dt.year dt.month then
    ⟨dt.year, dt.month, dt.day + 1⟩
  else if dt.month < 12 then ⟨dt.year, dt.month + 1, 1⟩
  else ⟨dt.year + 1, 1, 1⟩

lemma Date.nextDay_valid {dt : Date} (h : dt.Valid) : dt.nextDay.Valid := by
  obtain ⟨y, m, d⟩ := dt
  obtain ⟨h1, h2, h3, h4, h5⟩ := h
  have hp1 := daysInMonth_pos y (m + 1)
  have hp2 := daysInMonth_pos (y + 1) 1
  try dsimp only at h1 h2 h3 h4 h5
  try dsimp only
  rw [Date.nextDay]
  dsimp only
  split
  · exact ⟨h1, h2, h3, by dsimp only; omega, by dsimp only; omega⟩
  · split
    · exact ⟨h1, by dsimp only; omega, by dsimp only; omega, le_refl 1,
        by dsimp only; omega⟩
    · exact ⟨by dsimp only; omega, by dsimp only; omega, by dsimp only; omega,
        le_refl 1, by dsimp only; omega⟩

lemma Date.toN_nextDay {dt : Date} (h : dt.Valid) :
    dt.nextDay.toN = dt.toN + 1 := by
  obtain ⟨y, m, d⟩ := dt
  obtain ⟨h1, h2, h3, h4, h5⟩ := h
  try dsimp only at h1 h2 h3 h4 h5
  try dsimp only
  rw [Date.nextDay]
  dsimp only
  split
  · simp only [Date.toN]
    omega
  · split
    · have hstep := daysBeforeMonth_step y m h2 (by omega)
      simp only [Date.toN]
      omega
    · have hm12 : m = 12 := by omega
      subst hm12
      have hdim : daysInMonth y 12 = 31 := by simp [daysInMonth]
      have hdbm : daysBeforeMonth y 12 = 334 + leapAdj y := rfl
      have hdbm1 : daysBeforeMonth (y + 1) 1 = 0 := rfl
      have hsucc := daysBeforeYear_succ y h1
      unfold daysInYear at hsucc
      simp only [Date.toN]
      omega

-- Predecessor of a calendar date (clamped at 0001-01-01).
def Date.prevDay (dt : Date) : Date :=
  if 1 < dt.day then ⟨dt.year, dt.month, dt.day - 1⟩
  else if 1 < dt.month then
    ⟨dt.year, dt.month - 1, daysInMonth dt.year (dt.month - 1)⟩
  else if 1 < dt.year then ⟨dt.year - 1, 12, 31⟩
  else dt

lemma Date.prevDay_valid {dt : Date} (h : dt.Valid) : dt.prevDay.Valid := by
  obtain ⟨y, m, d⟩ := dt
  obtain ⟨h1, h2, h3, h4, h5⟩ := h
  have hp1 := daysInMonth_pos y (m - 1)
  try dsimp only at h1 h2 h3 h4 h5
  try dsimp only
  rw [Date.prevDay]
  dsimp only
  split
  · exact ⟨h1, h2, h3, by dsimp only; omega, by dsimp only; omega⟩
  · split
    · exact ⟨h1, by dsimp only; omega, by dsimp only; omega,
        by dsimp only; omega, le_refl _⟩
    · split
      · refine ⟨by dsimp only; omega, by dsimp only; omega,
          by dsimp only; omega, by dsimp only; omega, ?_⟩
        dsimp only
        simp [daysInMonth]
      · exact ⟨h1, h2, h3, h4, h5⟩

lemma Date.toN_prevDay {dt : Date} (h : dt.Valid) (hpos : 0 < dt.toN) :
    dt.prevDay.toN = dt.toN - 1 := by
  obtain ⟨y, m, d⟩ := dt
  obtain ⟨h1, h2, h3, h4, h5⟩ := h
  try dsimp only at h1 h2 h3 h4 h5
  try dsimp only
  simp only [Date.toN] at hpos
  try dsimp only at hpos
  rw [Date.prevDay]
  dsimp only
  split
  · simp only [Date.toN]
    omega
  · split
    · have hstep := daysBeforeMonth_step y (m - 1) (by omega)
        (by omega)
      have hm : m - 1 + 1 = m := by omega
      rw [hm] at hstep
      have hp1 := daysInMonth_pos y (m - 1)
      simp only [Date.toN]
      omega
    · split
      · have hm1 : m = 1 := by omega
        have hd1 : d = 1 := by omega
        subst hm1
        subst hd1
        have hdbm : daysBeforeMonth (y - 1) 12 =
            334 + leapAdj (y - 1) := rfl
        have hdim : daysInMonth (y - 1) 12 = 31 := by simp [daysInMonth]
        have hsucc := daysBeforeYear_succ (y - 1) (by omega)
        have hy : y - 1 + 1 = y := by omega
        rw [hy] at hsucc
        unfold daysInYear at hsucc
        simp only [Date.toN]
        have hdbm1 : daysBeforeMonth y 1 = 0 := rfl
        rw [hdbm1] at hpos
        omega
      · have hy1 : y = 1 := by omega
        have hm1 : m = 1 := by omega
        have hd1 : d = 1 := by omega
        subst hy1; subst hm1; subst hd1
        simp [daysBeforeMonth, daysBeforeYear] at hpos

-- `timedelta(days = n)` addition.
def Date.addDays (dt : Date) : Nat → Date
  | 0 => dt
  | n + 1 => (dt.addDays n).nextDay

lemma Date.addDays_valid {dt : Date} (h : dt.Valid) (n : Nat) :
    (dt.addDays n).Valid := by
  induction n with
  | zero => exact h
  | succ n ih => exact Date.nextDay_valid ih

lemma Date.toN_addDays {dt : Date} (h : dt.Valid) (n : Nat) :
    (dt.addDays n).toN = dt.toN + n := by
  induction n with
  | zero => rfl
  | succ n ih =>
      have := Date.toN_nextDay (Date.addDays_valid h n)
      simp only [Date.addDays]
      omega

-- `timedelta(days = n)` subtraction (total; clamped at the epoch).
def Date.subDays (dt : Date) : Nat → Date
  | 0 => dt
  | n + 1 => (dt.subDays n).prevDay

lemma Date.subDays_valid {dt : Date} (h : dt.Valid) (n : Nat) :
    (dt.subDays n).Valid := by
  induction n with
  | zero => exact h
  | succ n ih => exact Date.prevDay_valid ih

lemma Date.toN_subDays {dt : Date} (h : dt.Valid) (n : Nat)
    (hle : n ≤ dt.toN) :
    (dt.subDays n).toN = dt.toN - n := by
  induction n with
  | zero => rfl
  | succ n ih =>
      have hn : n ≤ dt.toN := by omega
      have hv := Date.subDays_valid h n
      have hp : 0 < (dt.subDays n).toN := by
        rw [ih hn]; omega
      have := Date.toN_prevDay hv hp
      simp only [Date.subDays]
      omega

/-- `dateutil.relativedelta(months = k)` addition: shift the month index,
carry into years, and clamp the day down to the target month's length. -/
def Date.addMonths (dt : Date) (k : Nat) : Date :=
  let t := dt.month - 1 + k
  let y := dt.year + t / 12
  let m := t % 12 + 1
  ⟨y, m, min dt.day (daysInMonth y m)⟩

lemma Date.addMonths_valid {dt : Date} (h : dt.Valid) (k : Nat) :
    (dt.addMonths k).Valid := by
  obtain ⟨y, m, d⟩ := dt
  obtain ⟨h1, h2, h3, h4, h5⟩ := h
  try dsimp only at h1 h2 h3 h4 h5
  try dsimp only
  rw [Date.addMonths]
  have := daysInMonth_pos (y + (m - 1 + k) / 12) ((m - 1 + k) % 12 + 1)
  refine ⟨by dsimp only; omega, by dsimp only; omega, by dsimp only; omega,
    by dsimp only; omega, by dsimp only; exact min_le_right _ _⟩

lemma Date.toN_lt_addMonths {dt : Date} (h : dt.Valid) {k : Nat}
    (hk : 1 ≤ k) :
    dt.toN < (dt.addMonths k).toN := by
  apply Date.toN_lt_of_lex h (Date.addMonths_valid h k)
  obtain ⟨y, m, d⟩ := dt
  obtain ⟨h1, h2, h3, h4, h5⟩ := h
  rw [Date.addMonths]
  dsimp only
  omega

/-- `dateutil.relativedelta(years = k)` addition: shift the year and clamp
the day down to the target month's length (Feb 29 → Feb 28). -/
def Date.addYears (dt : Date) (k : Nat) : Date :=
  ⟨dt.year + k, dt.month, min dt.day (daysInMonth (dt.year + k) dt.month)⟩

lemma Date.addYears_valid {dt : Date} (h : dt.Valid) (k : Nat) :
    (dt.addYears k).Valid := by
  obtain ⟨y, m, d⟩ := dt
  obtain ⟨h1, h2, h3, h4, h5⟩ := h
  try dsimp only at h1 h2 h3 h4 h5
  try dsimp only
  rw [Date.addYears]
  have := daysInMonth_pos (y + k) m
  exact ⟨by dsimp only; omega, h2, h3, by dsimp only; omega,
    by dsimp only; exact min_le_right _ _⟩

lemma Date.toN_lt_addYears {dt : Date} (h : dt.Valid) {k : Nat}
    (hk : 1 ≤ k) :
    dt.toN < (dt.addYears k).toN := by
  apply Date.toN_lt_of_lex h (Date.addYears_valid h k)
  obtain ⟨y, m, d⟩ := dt
  rw [Date.addYears]
  dsimp only
  omega

end Recur

namespace Recur

/-!
## Recurrence rule / template model

`Tmpl` carries exactly the fields of `project.task` that the recurrence
logic of `project_task.py` reads: the rule fields, the scheduling cursor
`next_recurrence_date`, the countdown `recurrence_left`, and the record id
(used as the `recurring_template_id` back-reference on children).
`repeat_intervals`, `repeat_number` and `recurrence_left` are Odoo
`Integer` fields and are modelled as `Int` (an unset Odoo integer reads
as `0`).  Presentation-only fields (name, assignees, chatter) are omitted.
-/

inductive RepeatUnit where
  | day
  | week
  | month
  | year
deriving DecidableEq, Repr

inductive RepeatType where
  | forever
  | untilDate
  | after
deriving DecidableEq, Repr

structure Tmpl where
  tid : Nat
  recurring_task : Bool
  is_recurring_template : Bool
  repeat_intervals : Int
  repeat_unit : RepeatUnit
  mon : Bool
  tue : Bool
  wed : Bool
  thu : Bool
  fri : Bool
  sat : Bool
  sun : Bool
  recurrence_start_date : Option Date
  repeat_type : RepeatType
  repeat_until : Option Date
  repeat_number : Int
  next_recurrence_date : Option Date
  recurrence_left : Int
deriving DecidableEq, Repr

/-- The `selected_weekdays` set built in `_get_next_occurrence_date` and
`_compute_first_occurrence_date`: weekday `w` (Monday = 0) is selected iff
the corresponding boolean flag is set. -/
def maskOf (t : Tmpl) (w : Nat) : Bool :=
  match w with
  | 0 => t.mon
  | 1 => t.tue
  | 2 => t.wed
  | 3 => t.thu
  | 4 => t.fri
  | 5 => t.sat
  | 6 => t.sun
  | _ => false

/-- `any([self.mon, ..., self.sun])`: the weekday mask is non-empty. -/
def hasAnyWeekday (t : Tmpl) : Bool :=
  t.mon || t.tue || t.wed || t.thu || t.fri || t.sat || t.sun

/-- `interval = max(1, int(self.repeat_intervals or 1))`: Python's `or`
turns a zero (falsy) value into `1`, then `max` clamps negatives. -/
def effInterval (t : Tmpl) : Nat :=
  (max 1 (if t.repeat_intervals = 0 then 1 else t.repeat_intervals)).toNat

/-- The weekday scan loop `while temp.weekday() not in selected_weekdays:
temp += timedelta(days=1)` shared by the calculator's week branches.
Any seven consecutive dates realize all seven weekdays, so for a
non-empty mask the source's loop terminates within seven checks; the
loop is therefore modelled with seven steps of fuel.  On fuel
exhaustion the scan stands at `start + 7`, which also matches the
`break` guard (`temp_date >= next_interval_week_start + 7 days`) of the
bounded block scan in the interval > 1 branch. -/
def scanWeekday (t : Tmpl) : Date → Nat → Date
  | dt, 0 => dt
  | dt, fuel + 1 =>
      if maskOf t dt.weekday then dt else scanWeekday t dt.nextDay fuel

/-- `_get_next_occurrence_date(self, last_date)`: the next occurrence
strictly after `last_date` (the source's docstring), `none` when
`unit = week` and no weekday flag is set. -/
def _get_next_occurrence_date (t : Tmpl) (last_date : Date) : Option Date :=
  let interval := effInterval t
  match t.repeat_unit with
  | .day => some (last_date.addDays interval)
  | .month => some (last_date.addMonths interval)
  | .year => some (last_date.addYears interval)
  | .week =>
      if hasAnyWeekday t = false then none
      else
        let next_date := last_date.addDays 1
        if interval = 1 then some (scanWeekday t next_date 7)
        else
          let start_of_last_week := last_date.subDays last_date.weekday
          let next_interval_week_start :=
            start_of_last_week.addDays (7 * interval)
          let temp_date := scanWeekday t next_interval_week_start 7
          if temp_date.toN ≤ last_date.toN then
            some (scanWeekday t (next_interval_week_start.addDays 7) 7)
          else some temp_date

/-- `_is_recurrence_valid(self)`. -/
def _is_recurrence_valid (t : Tmpl) : Bool :=
  if !t.recurring_task then false
  else if t.repeat_unit = .week ∧ hasAnyWeekday t = false then false
  else if t.repeat_intervals ≤ 0 then false
  else true

/-- `_compute_first_occurrence_date(self)`: first valid occurrence on or
after the start date (`none` when there is no start date, or when
`unit = week` and the mask is empty). -/
def _compute_first_occurrence_date (t : Tmpl) : Option Date :=
  match t.recurrence_start_date with
  | none => none
  | some start_date =>
      if t.repeat_unit = .week then
        if hasAnyWeekday t = false then none
        else some (scanWeekday t start_date 7)
      else some start_date

end Recur

namespace Recur

lemma scanWeekday_basic (t : Tmpl) :
    ∀ (fuel : Nat) (dt : Date), dt.Valid →
      (scanWeekday t dt fuel).Valid ∧
      dt.toN ≤ (scanWeekday t dt fuel).toN ∧
      (scanWeekday t dt fuel).toN ≤ dt.toN + fuel := by
  intro fuel
  induction fuel with
  | zero =>
      intro dt h
      simp only [scanWeekday]
      exact ⟨h, le_refl _, by omega⟩
  | succ n ih =>
      intro dt h
      simp only [scanWeekday]
      split
      · exact ⟨h, le_refl _, by omega⟩
      · obtain ⟨hv, hle1, hle2⟩ := ih dt.nextDay (Date.nextDay_valid h)
        have hn := Date.toN_nextDay h
        exact ⟨hv, by omega, by omega⟩

lemma scanWeekday_found (t : Tmpl) :
    ∀ (fuel : Nat) (dt : Date), dt.Valid →
      (∃ i, i < fuel ∧ maskOf t ((dt.toN + i) % 7) = true) →
      maskOf t (scanWeekday t dt fuel).weekday = true ∧
      (∀ n, dt.toN ≤ n → n < (scanWeekday t dt fuel).toN →
        maskOf t (n % 7) = false) := by
  intro fuel
  induction fuel with
  | zero =>
      intro dt _ hex
      obtain ⟨i, hi, _⟩ := hex
      omega
  | succ fn ih =>
      intro dt h hex
      simp only [scanWeekday]
      split
      · rename_i hmask
        refine ⟨hmask, ?_⟩
        intro n h1 h2
        omega
      · rename_i hmask
        have hmf : maskOf t (dt.toN % 7) = false := by
          rw [Bool.not_eq_true] at hmask
          exact hmask
        obtain ⟨i, hi, hhit⟩ := hex
        have hi0 : i ≠ 0 := by
          intro h0
          rw [h0, Nat.add_zero] at hhit
          rw [hmf] at hhit
          exact Bool.false_ne_true hhit
        have hex' : ∃ j, j < fn ∧
            maskOf t ((dt.nextDay.toN + j) % 7) = true := by
          refine ⟨i - 1, by omega, ?_⟩
          rw [Date.toN_nextDay h]
          rw [show dt.toN + 1 + (i - 1) = dt.toN + i by omega]
          exact hhit
        obtain ⟨hfound, hmin⟩ := ih dt.nextDay (Date.nextDay_valid h) hex'
        refine ⟨hfound, ?_⟩
        intro n h1 h2
        rcases eq_or_lt_of_le h1 with he | hlt
        · rw [← he]
          exact hmf
        · refine hmin n ?_ h2
          rw [Date.toN_nextDay h]
          omega

lemma maskOf_exists_of_hasAny {t : Tmpl} (h : hasAnyWeekday t = true) :
    ∃ j, j < 7 ∧ maskOf t j = true := by
  unfold hasAnyWeekday at h
  simp only [Bool.or_eq_true] at h
  rcases h with ((((((h | h) | h) | h) | h) | h) | h)
  exacts [⟨0, by omega, h⟩, ⟨1, by omega, h⟩, ⟨2, by omega, h⟩,
    ⟨3, by omega, h⟩, ⟨4, by omega, h⟩, ⟨5, by omega, h⟩, ⟨6, by omega, h⟩]

lemma exists_hit {t : Tmpl} (h : hasAnyWeekday t = true) (n : Nat) :
    ∃ i, i < 7 ∧ maskOf t ((n + i) % 7) = true := by
  obtain ⟨j, hj, hmask⟩ := maskOf_exists_of_hasAny h
  refine ⟨(j + 7 - n % 7) % 7, by omega, ?_⟩
  rw [show (n + (j + 7 - n % 7) % 7) % 7 = j by omega]
  exact hmask

/-- For a non-empty mask, the seven-step scan lands on a selected weekday,
never before the start, within six days of the start, and skips only
unselected days (it is the first hit on or after the start). -/
lemma scanWeekday_spec {t : Tmpl} {dt : Date} (hv : dt.Valid)
    (hmask : hasAnyWeekday t = true) :
    (scanWeekday t dt 7).Valid ∧
    maskOf t (scanWeekday t dt 7).weekday = true ∧
    dt.toN ≤ (scanWeekday t dt 7).toN ∧
    (scanWeekday t dt 7).toN ≤ dt.toN + 6 ∧
    (∀ n, dt.toN ≤ n → n < (scanWeekday t dt 7).toN →
      maskOf t (n % 7) = false) := by
  obtain ⟨hvv, hge, _⟩ := scanWeekday_basic t 7 dt hv
  obtain ⟨i, hi, hhit⟩ := exists_hit hmask dt.toN
  obtain ⟨hfound, hmin⟩ := scanWeekday_found t 7 dt hv ⟨i, hi, hhit⟩
  refine ⟨hvv, hfound, hge, ?_, hmin⟩
  by_contra hgt
  have hlt : dt.toN + i < (scanWeekday t dt 7).toN := by omega
  have := hmin (dt.toN + i) (by omega) hlt
  rw [this] at hhit
  exact Bool.false_ne_true hhit

/-!
## Preview generator

The date-collection loop of `_compute_recurrence_message`: starting from
the list `[next_recurrence_date]`, repeatedly append
`_get_next_occurrence_date` results, stopping at the length limit, a
`none` from the calculator, or (under the `until` policy) a date past
`repeat_until`.  The loop `while len(dates) < limit` appends one date per
iteration starting from length 1, hence runs at most `limit - 1` times;
that bound is the fuel.
-/

/-- `limit = 100 if task.repeat_type != 'after' else (task.repeat_number or 0)`
(`repeat_number or 0` is the identity on an integer field). -/
def previewLimit (t : Tmpl) : Int :=
  if t.repeat_type ≠ .after then 100 else t.repeat_number

/-- `task.repeat_type == 'until' and task.repeat_until and
next_date > task.repeat_until` (a date object is never falsy). -/
def untilExceeded (t : Tmpl) (d : Date) : Bool :=
  decide (t.repeat_type = .untilDate) &&
    (match t.repeat_until with
     | some u => decide (u.toN < d.toN)
     | none => false)

def previewGo (t : Tmpl) : Date → List Date → Nat → List Date
  | _, acc, 0 => acc
  | temp_date, acc, fuel + 1 =>
      match _get_next_occurrence_date t temp_date with
      | none => acc
      | some next_date =>
          if untilExceeded t next_date then acc
          else previewGo t next_date (acc ++ [next_date]) fuel

/-- The list `dates` computed by `_compute_recurrence_message` for one
task (empty when recurrence is off or there is no cursor, mirroring the
early `continue` that leaves no message). -/
def _compute_recurrence_message_dates (t : Tmpl) : List Date :=
  if !t.recurring_task then []
  else
    match t.next_recurrence_date with
    | none => []
    | some c => previewGo t c [c] ((previewLimit t - 1).toNat)

end Recur

namespace Recur

/-!
## Claim-and-generate engine

State-level model of `_cron_create_recurring_tasks`.  The store `St`
holds the template rows and the set of materialized children, a child
being identified by its `(recurring_template_id, occurrence_date)` pair —
exactly the key of the `uniq_template_occurrence` SQL constraint.

`processTemplate` is the body of the per-template loop.  The whole cron
method runs in a single database transaction with no intermediate
commit, so the loop threads two stores: `σC`, the committed state at
transaction start (what `self.env.cr.rollback()` restores), and `σ`,
the current uncommitted state.  The template is taken as read at
selection time (`snap`) separately from the current store, because the
raw-SQL claim
(`UPDATE ... WHERE id = .. AND next_recurrence_date = ..`) compares
against the *stored* cursor, which a concurrent worker may have advanced
after selection; in a single-worker sequential pass the two coincide.
`copy()` is modelled by its only failure mode relevant here: the insert
succeeds iff the `(template, date)` pair is not already present.
Otherwise psycopg2 raises the uniqueness violation and the handler calls
`self.env.cr.rollback()`, which reverts the *whole* transaction — the
claim UPDATE, the pre-claim countdown initialization, and every earlier
uncommitted write of this pass included — back to `σC`.  The Odoo
cursor's rollback also invalidates the record cache, so the stop
evaluation that still follows (`new_task` is `None`) re-reads the
reverted row, while `next_date` survives as a Python local
(`rollbackRecover`).  Chatter posts and logging are side effects outside
the model; the per-template `try/except` re-raise path for
non-uniqueness errors has no modelled trigger.
-/

structure St where
  tmpls : List Tmpl
  occs : List (Nat × Date)
deriving DecidableEq, Repr

def St.getTmpl (σ : St) (i : Nat) : Option Tmpl :=
  σ.tmpls.find? (fun t => t.tid == i)

def St.updTmpl (σ : St) (i : Nat) (f : Tmpl → Tmpl) : St :=
  { σ with tmpls := σ.tmpls.map (fun t => if t.tid = i then f t else t) }

/-- The tail of the loop body (from `if new_task:` through the stop
evaluation) as executed after the duplicate-occurrence `cr.rollback()`:
the store has been restored to the transaction-start state `σC` and the
record cache invalidated, so every `template.<field>` read hits the
reverted row, while `next_date` is still the Python local computed
before the claim.  `new_task` is `None`, so only the stop evaluation
acts: terminate on an exceeded `until` bound, or decrement the countdown
— recomputed as `(recurrence_left or repeat_number or 0) - 1` from the
reverted (pre-initialization) value — and terminate when it falls
to ≤ 0. -/
def rollbackRecover (σC : St) (tid : Nat) (next_date : Date) : St :=
  match σC.getTmpl tid with
  | none => σC
  | some rowC =>
      if untilExceeded rowC next_date then
        σC.updTmpl tid
          (fun t => { t with recurring_task := false, next_recurrence_date := none })
      else if rowC.repeat_type = .after then
        let new_left :=
          (if rowC.recurrence_left ≠ 0 then rowC.recurrence_left
           else if rowC.repeat_number ≠ 0 then rowC.repeat_number
           else 0) - 1
        let σ4 := σC.updTmpl tid
          (fun t => { t with recurrence_left := new_left })
        if new_left ≤ 0 then
          σ4.updTmpl tid
            (fun t => { t with recurring_task := false, next_recurrence_date := none })
        else σ4
      else σC

def processTemplate (today : Date) (σC : St) (snap : Tmpl) (σ : St) : St :=
  -- `if template.repeat_type == 'after' and (template.recurrence_left in
  -- (False, 0))`: an Odoo Integer reads as an int and `False == 0` in
  -- Python, so the membership test is `recurrence_left = 0`;
  -- `template.repeat_number or 0` is the identity on an integer field.
  -- The write is an ordinary ORM write, visible in later live reads of
  -- the record (modelled by carrying the updated row alongside the
  -- updated store).
  let init :=
    if snap.repeat_type = .after ∧ snap.recurrence_left = 0 then
      ({ snap with recurrence_left := snap.repeat_number },
        σ.updTmpl snap.tid
          (fun t => { t with recurrence_left := snap.repeat_number }))
    else (snap, σ)
  let snap1 := init.1
  let σ1 := init.2
  -- occurrence_date = template.next_recurrence_date or
  --   template.recurrence_start_date or today  (Python `or` on date/None)
  let occurrence_date :=
    snap1.next_recurrence_date.getD (snap1.recurrence_start_date.getD today)
  match _get_next_occurrence_date snap1 occurrence_date with
  | none =>
      -- no next date: stop the template without creating a child
      σ1.updTmpl snap.tid
        (fun t => { t with recurring_task := false, next_recurrence_date := none })
  | some next_date =>
      -- the raw-SQL compare-and-set claim: an UPDATE guarded by
      -- `id = .. AND next_recurrence_date = ..` touches one row iff the
      -- row exists and its stored cursor still equals occurrence_date
      if (σ1.getTmpl snap.tid).map Tmpl.next_recurrence_date =
          some (some occurrence_date) then
        let σ2 := σ1.updTmpl snap.tid
          (fun t => { t with next_recurrence_date := some next_date })
        -- copy(): insert guarded by the unique constraint on
        -- (recurring_template_id, occurrence_date); a duplicate raises,
        -- and the handler's cr.rollback() reverts the whole transaction
        -- to σC before the stop evaluation re-runs on the reverted row
        if (snap.tid, occurrence_date) ∈ σ2.occs then
          rollbackRecover σC snap.tid next_date
        else
        let σ3 : St := ⟨σ2.tmpls, σ2.occs ++ [(snap.tid, occurrence_date)]⟩
        -- stop evaluation (the cursor was already advanced by the claim)
        if untilExceeded snap next_date then
          σ3.updTmpl snap.tid
            (fun t => { t with recurring_task := false, next_recurrence_date := none })
        else if snap.repeat_type = .after then
          match σ3.getTmpl snap.tid with
          | some row =>
              -- new_left = (template.recurrence_left or
              --             template.repeat_number or 0) - 1, live reads
              let new_left :=
                (if row.recurrence_left ≠ 0 then row.recurrence_left
                 else if row.repeat_number ≠ 0 then row.repeat_number
                 else 0) - 1
              let σ4 := σ3.updTmpl snap.tid
                (fun t => { t with recurrence_left := new_left })
              if new_left ≤ 0 then
                σ4.updTmpl snap.tid
                  (fun t => { t with recurring_task := false, next_recurrence_date := none })
              else σ4
          | none => σ3
        else σ3
      else
        -- claim conflict: skip this template for this pass
        σ1

/-- Is the template selected by the cron's search domain
`recurring_task ∧ is_recurring_template ∧ next_recurrence_date ≤ today`
(an SQL comparison, false on a NULL cursor)? -/
def dueToday (today : Date) (t : Tmpl) : Bool :=
  t.recurring_task && t.is_recurring_template &&
    (match t.next_recurrence_date with
     | some d => decide (d.toN ≤ today.toN)
     | none => false)

/-- `_cron_create_recurring_tasks`, one sequential pass: search the due
templates once, then process each in order, re-reading the row (Odoo
records are live views of the store) as the loop reaches it.  The pass
runs in one transaction committed only at its end, so the rollback
baseline handed to every iteration is the pass-start store `σ`: a
duplicate-occurrence rollback anywhere in the loop reverts to it, and
since nothing commits mid-pass, later rollbacks revert to it again. -/
def _cron_create_recurring_tasks (today : Date) (σ : St) : St :=
  let due := σ.tmpls.filter (dueToday today)
  (due.map (fun t => t.tid)).foldl
    (fun s i =>
      match s.getTmpl i with
      | some row => processTemplate today σ row s
      | none => s) σ

end Recur

namespace Recur

lemma effInterval_pos (t : Tmpl) : 1 ≤ effInterval t := by
  unfold effInterval
  have h1 : (1 : Int) ≤
      max 1 (if t.repeat_intervals = 0 then 1 else t.repeat_intervals) :=
    le_max_left _ _
  omega

/-- Unpack `_is_recurrence_valid t = true` into its three conditions. -/
lemma isRecurrenceValid_fields {t : Tmpl}
    (h : _is_recurrence_valid t = true) :
    t.recurring_task = true ∧ 0 < t.repeat_intervals ∧
      (t.repeat_unit = .week → hasAnyWeekday t = true) := by
  unfold _is_recurrence_valid at h
  split at h
  · exact absurd h (by simp)
  · split at h
    · exact absurd h (by simp)
    · split at h
      · exact absurd h (by simp)
      · rename_i h1 h2 h3
        refine ⟨by simpa using h1, by omega, ?_⟩
        intro hw
        by_contra hm
        rw [Bool.not_eq_true] at hm
        exact h2 ⟨hw, hm⟩

lemma maskOf_congr {t t' : Tmpl} (hmon : t'.mon = t.mon)
    (htue : t'.tue = t.tue) (hwed : t'.wed = t.wed) (hthu : t'.thu = t.thu)
    (hfri : t'.fri = t.fri) (hsat : t'.sat = t.sat) (hsun : t'.sun = t.sun) :
    ∀ w, maskOf t' w = maskOf t w := by
  intro w
  unfold maskOf
  rcases w with _ | _ | _ | _ | _ | _ | _ | w <;>
    simp [hmon, htue, hwed, hthu, hfri, hsat, hsun]

lemma hasAnyWeekday_congr {t t' : Tmpl} (hmon : t'.mon = t.mon)
    (htue : t'.tue = t.tue) (hwed : t'.wed = t.wed) (hthu : t'.thu = t.thu)
    (hfri : t'.fri = t.fri) (hsat : t'.sat = t.sat) (hsun : t'.sun = t.sun) :
    hasAnyWeekday t' = hasAnyWeekday t := by
  unfold hasAnyWeekday
  rw [hmon, htue, hwed, hthu, hfri, hsat, hsun]

lemma scanWeekday_congr {t t' : Tmpl}
    (hm : ∀ w, maskOf t' w = maskOf t w) :
    ∀ (dt : Date) (fuel : Nat), scanWeekday t' dt fuel = scanWeekday t dt fuel := by
  intro dt fuel
  induction fuel generalizing dt with
  | zero => rfl
  | succ n ih =>
      simp only [scanWeekday, hm]
      split
      · rfl
      · exact ih _

lemma effInterval_congr {t t' : Tmpl}
    (h : t'.repeat_intervals = t.repeat_intervals) :
    effInterval t' = effInterval t := by
  unfold effInterval
  rw [h]

/-- `_get_next_occurrence_date` depends only on the rule fields
(unit, effective interval, weekday flags), not on the cursor or the
countdown. -/
lemma getNext_congr {t t' : Tmpl} (d : Date)
    (hunit : t'.repeat_unit = t.repeat_unit)
    (heff : effInterval t' = effInterval t)
    (hmon : t'.mon = t.mon) (htue : t'.tue = t.tue) (hwed : t'.wed = t.wed)
    (hthu : t'.thu = t.thu) (hfri : t'.fri = t.fri) (hsat : t'.sat = t.sat)
    (hsun : t'.sun = t.sun) :
    _get_next_occurrence_date t' d = _get_next_occurrence_date t d := by
  have hmask := maskOf_congr hmon htue hwed hthu hfri hsat hsun
  have hany := hasAnyWeekday_congr hmon htue hwed hthu hfri hsat hsun
  have hscan := scanWeekday_congr hmask
  unfold _get_next_occurrence_date
  rw [hunit]
  cases t.repeat_unit <;>
    simp only [heff, hany, hscan]

/-- `_get_next_occurrence_date` reads only the rule fields, never the
`recurrence_left` countdown. -/
lemma getNext_left_irrel (t : Tmpl) (x : Int) (d : Date) :
    _get_next_occurrence_date { t with recurrence_left := x } d =
      _get_next_occurrence_date t d :=
  getNext_congr d rfl rfl rfl rfl rfl rfl rfl rfl rfl

/-- Core strict-progress property of the occurrence calculator: on any
valid date, a rule whose weekday mask is non-empty when weekly always
yields a next occurrence strictly after the input (for any
`repeat_intervals`, thanks to the `max(1, ...)` clamp). -/
lemma next_strictly_after_core (t : Tmpl) (d : Date) (hd : d.Valid)
    (hmask : t.repeat_unit = .week → hasAnyWeekday t = true) :
    ∃ nd, _get_next_occurrence_date t d = some nd ∧ d.toN < nd.toN ∧
      nd.Valid := by
  have hI := effInterval_pos t
  unfold _get_next_occurrence_date
  rcases hu : t.repeat_unit with _ | _ | _ | _
  · -- day
    simp only [hu]
    refine ⟨_, rfl, ?_, Date.addDays_valid hd _⟩
    rw [Date.toN_addDays hd]
    omega
  · -- week
    have hA : hasAnyWeekday t = true := hmask hu
    simp only [hu, hA]
    norm_num
    split
    · -- interval = 1: scan forward from the day after
      have hv1 := Date.addDays_valid hd 1
      obtain ⟨sv, _, sge, _, _⟩ := scanWeekday_spec hv1 hA
      refine ⟨_, rfl, ?_, sv⟩
      rw [Date.toN_addDays hd] at sge
      omega
    · -- interval ≥ 2: week-block jump
      rename_i hne
      have hI2 : 2 ≤ effInterval t := by omega
      have hwk : d.weekday ≤ d.toN := Nat.mod_le _ _
      have hwk6 : d.weekday ≤ 6 := by
        unfold Date.weekday
        omega
      have hvs := Date.subDays_valid hd d.weekday
      have hts := Date.toN_subDays hd d.weekday hwk
      have hva := Date.addDays_valid hvs (7 * effInterval t)
      have hta : ((d.subDays d.weekday).addDays (7 * effInterval t)).toN =
          d.toN - d.weekday + 7 * effInterval t := by
        rw [Date.toN_addDays hvs, hts]
      obtain ⟨sv, _, sge, _, _⟩ := scanWeekday_spec hva hA
      have hgt : d.toN <
          (scanWeekday t ((d.subDays d.weekday).addDays
            (7 * effInterval t)) 7).toN := by
        omega
      rw [if_neg (by omega)]
      exact ⟨_, rfl, hgt, sv⟩
  · -- month
    simp only [hu]
    exact ⟨_, rfl, Date.toN_lt_addMonths hd hI, Date.addMonths_valid hd _⟩
  · -- year
    simp only [hu]
    exact ⟨_, rfl, Date.toN_lt_addYears hd hI, Date.addYears_valid hd _⟩

end Recur

namespace Recur

lemma effInterval_of_nonpos {t : Tmpl} (h : t.repeat_intervals ≤ 0) :
    effInterval t = 1 := by
  unfold effInterval
  split
  · decide
  · rename_i hne
    rw [max_eq_left (by omega : t.repeat_intervals ≤ (1 : Int))]
    rfl

/-- C1: for every valid rule (positive interval; non-empty weekday mask
when the unit is `week`) and every calendar date `d`,
`_get_next_occurrence_date` returns a date strictly greater than `d`; in
particular the weekly interval > 1 path (including its advance-one-block
fallback) always lands strictly after `d`. -/
theorem next_occurrence_strictly_after (t : Tmpl) (d : Date)
    (hd : d.Valid) (hv : _is_recurrence_valid t = true) :
    ∃ nd, _get_next_occurrence_date t d = some nd ∧ d.toN < nd.toN := by
  obtain ⟨-, -, hmask⟩ := isRecurrenceValid_fields hv
  obtain ⟨nd, h1, h2, -⟩ := next_strictly_after_core t d hd hmask
  exact ⟨nd, h1, h2⟩

def tWeek2 : Tmpl :=
  ⟨1, true, true, 2, .week, true, false, true, false, false, false, false,
    none, .forever, none, 0, none, 0⟩

theorem next_occurrence_strictly_after_witness :
    (⟨2, 1, 3⟩ : Date).Valid ∧ _is_recurrence_valid tWeek2 = true ∧
    ∃ nd, _get_next_occurrence_date tWeek2 ⟨2, 1, 3⟩ = some nd ∧
      (⟨2, 1, 3⟩ : Date).toN < nd.toN :=
  ⟨by decide, by decide,
    next_occurrence_strictly_after tWeek2 ⟨2, 1, 3⟩ (by decide) (by decide)⟩

/-- C7: a monthly rule with interval 1 started on 2024-01-31 yields
2024-02-29 (day clamped to February's length), and applied again yields
2024-03-29 — the day is preserved once clamped, which is one of the two
conventions the specification allows; moreover the clamping convention
`day := min(day, daysInMonth)` is applied uniformly by every month and
year addition. -/
theorem monthly_end_of_month_clamping :
    (let tM : Tmpl :=
      ⟨1, true, true, 1, .month, false, false, false, false, false, false,
        false, none, .forever, none, 0, none, 0⟩
     _get_next_occurrence_date tM ⟨2024, 1, 31⟩ = some ⟨2024, 2, 29⟩ ∧
     _get_next_occurrence_date tM ⟨2024, 2, 29⟩ = some ⟨2024, 3, 29⟩ ∧
     (_get_next_occurrence_date tM ⟨2024, 2, 29⟩ = some ⟨2024, 3, 29⟩ ∨
      _get_next_occurrence_date tM ⟨2024, 2, 29⟩ = some ⟨2024, 3, 31⟩)) ∧
    (∀ (d : Date) (k : Nat),
      (d.addMonths k).day =
        min d.day (daysInMonth (d.addMonths k).year (d.addMonths k).month) ∧
      (d.addYears k).day =
        min d.day (daysInMonth (d.addYears k).year (d.addYears k).month)) :=
  ⟨⟨by decide, by decide, Or.inl (by decide)⟩,
    fun d k => ⟨rfl, rfl⟩⟩

/-- C8: `_compute_first_occurrence_date` returns the start date exactly
(as stored, including its absence) for non-week units; for week units it
returns the first date on or after the start date whose weekday is
selected, and `none` when no weekday is selected. -/
theorem first_occurrence_contract (t : Tmpl) :
    (t.repeat_unit ≠ .week →
      _compute_first_occurrence_date t = t.recurrence_start_date) ∧
    (t.repeat_unit = .week → hasAnyWeekday t = false →
      _compute_first_occurrence_date t = none) ∧
    (∀ s : Date, t.repeat_unit = .week → hasAnyWeekday t = true →
      t.recurrence_start_date = some s → s.Valid →
      ∃ r, _compute_first_occurrence_date t = some r ∧
        maskOf t r.weekday = true ∧ s.toN ≤ r.toN ∧
        (∀ n, s.toN ≤ n → n < r.toN → maskOf t (n % 7) = false)) := by
  refine ⟨?_, ?_, ?_⟩
  · intro hw
    unfold _compute_first_occurrence_date
    cases hs : t.recurrence_start_date
    · rfl
    · simp only
      rw [if_neg hw]
  · intro hw hm
    unfold _compute_first_occurrence_date
    cases hs : t.recurrence_start_date
    · rfl
    · simp only
      rw [if_pos hw, if_pos hm]
  · intro s hw hm hs hv
    obtain ⟨rv, rfound, rge, rle, rmin⟩ := scanWeekday_spec hv hm
    refine ⟨scanWeekday t s 7, ?_, rfound, rge, rmin⟩
    unfold _compute_first_occurrence_date
    rw [hs]
    simp only
    rw [if_pos hw, if_neg (by simp [hm])]

def tDayStart : Tmpl :=
  ⟨1, true, true, 1, .day, false, false, false, false, false, false, false,
    some ⟨2, 1, 5⟩, .forever, none, 0, none, 0⟩

def tWeekStart : Tmpl :=
  ⟨2, true, true, 1, .week, false, false, true, false, false, false, false,
    some ⟨2, 1, 1⟩, .forever, none, 0, none, 0⟩

theorem first_occurrence_contract_witness :
    _compute_first_occurrence_date tDayStart =
      tDayStart.recurrence_start_date ∧
    ∃ r, _compute_first_occurrence_date tWeekStart = some r ∧
      maskOf tWeekStart r.weekday = true ∧
      (⟨2, 1, 1⟩ : Date).toN ≤ r.toN ∧
      (∀ n, (⟨2, 1, 1⟩ : Date).toN ≤ n → n < r.toN →
        maskOf tWeekStart (n % 7) = false) :=
  ⟨(first_occurrence_contract tDayStart).1 (by decide),
    (first_occurrence_contract tWeekStart).2.2 ⟨2, 1, 1⟩ rfl rfl rfl
      (by decide)⟩

/-- C9: with a non-positive `repeat_intervals` the calculator behaves
exactly as with interval 1 (the `max(1, int(x or 1))` clamp), still
returns a date for the day/month/year units, while the validator rejects
such a rule. -/
theorem nonpositive_interval_clamped (t : Tmpl) (d : Date)
    (h : t.repeat_intervals ≤ 0) :
    _get_next_occurrence_date t d =
      _get_next_occurrence_date { t with repeat_intervals := 1 } d ∧
    (t.repeat_unit ≠ .week →
      (_get_next_occurrence_date t d).isSome = true) ∧
    _is_recurrence_valid t = false := by
  have he : effInterval t = 1 := effInterval_of_nonpos h
  have he' : effInterval { t with repeat_intervals := 1 } = 1 := by
    unfold effInterval
    dsimp only
    decide
  refine ⟨?_, ?_, ?_⟩
  · exact (@getNext_congr t { t with repeat_intervals := 1 } d rfl
      (he'.trans he.symm) rfl rfl rfl rfl rfl rfl rfl).symm
  · intro hw
    unfold _get_next_occurrence_date
    rcases hu : t.repeat_unit with _ | _ | _ | _ <;> simp [hu]
    exact absurd hu hw
  · cases hb : _is_recurrence_valid t
    · rfl
    · exact absurd (isRecurrenceValid_fields hb).2.1 (by omega)

theorem nonpositive_interval_clamped_witness :
    (let tZ : Tmpl :=
      ⟨1, true, true, -3, .day, false, false, false, false, false, false,
        false, none, .forever, none, 0, none, 0⟩
     _get_next_occurrence_date tZ ⟨2, 1, 5⟩ =
        _get_next_occurrence_date { tZ with repeat_intervals := 1 }
          ⟨2, 1, 5⟩ ∧
      (_get_next_occurrence_date tZ ⟨2, 1, 5⟩).isSome = true ∧
      _is_recurrence_valid tZ = false) := by
  refine ⟨?_, ?_, ?_⟩
  · exact (nonpositive_interval_clamped _ ⟨2, 1, 5⟩ (by decide)).1
  · exact (nonpositive_interval_clamped _ ⟨2, 1, 5⟩ (by decide)).2.1
      (by decide)
  · exact (nonpositive_interval_clamped _ ⟨2, 1, 5⟩ (by decide)).2.2

end Recur

namespace Recur

lemma previewGo_structure (t : Tmpl) :
    ∀ (fuel : Nat) (temp : Date) (acc : List Date),
      ∃ extra, previewGo t temp acc fuel = acc ++ extra ∧
        extra.length ≤ fuel ∧
        ∀ d ∈ extra, untilExceeded t d = false := by
  intro fuel
  induction fuel with
  | zero =>
      intro temp acc
      exact ⟨[], by simp [previewGo], by simp, by simp⟩
  | succ n ih =>
      intro temp acc
      simp only [previewGo]
      cases hn : _get_next_occurrence_date t temp with
      | none => exact ⟨[], by simp, by simp, by simp⟩
      | some nd =>
          by_cases hx : untilExceeded t nd = true
          · simp only [hx, if_true]
            exact ⟨[], by simp, by simp, by simp⟩
          · rw [Bool.not_eq_true] at hx
            obtain ⟨extra, heq, hlen, hall⟩ := ih nd (acc ++ [nd])
            refine ⟨nd :: extra, ?_, by simp; omega, ?_⟩
            · simp only [hx, Bool.false_eq_true, if_false, heq,
                List.append_assoc, List.singleton_append]
            · intro d hd
              rcases List.mem_cons.mp hd with rfl | hmem
              · exact hx
              · exact hall d hmem

/-- C2 (amended): the preview sequence holds at most
`max(1, maxCount)` dates — the initial cursor is always emitted, even
when `maxCount ≤ 0` — and the `Until` bound is enforced only on the
dates generated after the initial cursor. -/
theorem preview_bounded (t : Tmpl) :
    (_compute_recurrence_message_dates t).length ≤
      max 1 (previewLimit t).toNat ∧
    (∀ d ∈ (_compute_recurrence_message_dates t).tail,
      untilExceeded t d = false) ∧
    (∀ d ∈ (_compute_recurrence_message_dates t).tail, ∀ u : Date,
      t.repeat_type = .untilDate → t.repeat_until = some u →
      d.toN ≤ u.toN) := by
  unfold _compute_recurrence_message_dates
  split
  · exact ⟨by simp, by simp, by simp⟩
  · cases hc : t.next_recurrence_date with
    | none => exact ⟨by simp, by simp, by simp⟩
    | some c =>
        dsimp only
        obtain ⟨extra, heq, hlen, hall⟩ :=
          previewGo_structure t ((previewLimit t - 1).toNat) c [c]
        rw [heq]
        have htail : ([c] ++ extra).tail = extra := by
          simp
        refine ⟨?_, ?_, ?_⟩
        · simp only [List.length_append, List.length_singleton]
          omega
        · rw [htail]
          exact hall
        · rw [htail]
          intro d hd u hrt hu
          have hx := hall d hd
          rw [untilExceeded, hrt, hu] at hx
          simp only [decide_eq_true_eq] at hx
          simp only [Bool.and_eq_false_iff] at hx
          rcases hx with hx | hx
          · simp at hx
          · simp only [decide_eq_false_iff_not] at hx
            omega

def tAfterZero : Tmpl :=
  ⟨1, true, true, 1, .day, false, false, false, false, false, false, false,
    none, .after, none, 0, some ⟨2, 1, 10⟩, 0⟩

def tUntilPast : Tmpl :=
  ⟨2, true, true, 1, .day, false, false, false, false, false, false, false,
    none, .untilDate, some ⟨2, 1, 5⟩, 0, some ⟨2, 1, 10⟩, 0⟩

def tAfterLeftTwo : Tmpl :=
  ⟨4, true, true, 1, .day, false, false, false, false, false, false, false,
    none, .after, none, 5, some ⟨2, 1, 10⟩, 2⟩

/-- C2 (counterexample): under the `after` policy with zero configured
repetitions `maxCount = 0`, yet the preview still emits one date; under
the `until` policy the initial cursor is emitted even when it lies
strictly after the stop date; and the limit under `after` is the
configured `repeat_number`, not the remaining countdown — a template
with 2 repetitions left but 5 configured previews 5 dates. -/
theorem preview_bounds_counterexample :
    previewLimit tAfterZero = 0 ∧
    _compute_recurrence_message_dates tAfterZero = [⟨2, 1, 10⟩] ∧
    tUntilPast.repeat_until = some ⟨2, 1, 5⟩ ∧
    _compute_recurrence_message_dates tUntilPast = [⟨2, 1, 10⟩] ∧
    (⟨2, 1, 5⟩ : Date).toN < (⟨2, 1, 10⟩ : Date).toN ∧
    tAfterLeftTwo.recurrence_left = 2 ∧
    (_compute_recurrence_message_dates tAfterLeftTwo).length = 5 := by
  refine ⟨rfl, rfl, rfl, ?_, by decide, rfl, ?_⟩ <;> decide

def tUntilRun : Tmpl :=
  ⟨3, true, true, 1, .day, false, false, false, false, false, false, false,
    none, .untilDate, some ⟨2, 1, 20⟩, 0, some ⟨2, 1, 10⟩, 0⟩

theorem preview_bounded_witness :
    (_compute_recurrence_message_dates tUntilRun).length ≤
      max 1 (previewLimit tUntilRun).toNat ∧
    (⟨2, 1, 11⟩ : Date).toN ≤ (⟨2, 1, 20⟩ : Date).toN :=
  ⟨(preview_bounded tUntilRun).1,
    (preview_bounded tUntilRun).2.2 ⟨2, 1, 11⟩ (by decide) ⟨2, 1, 20⟩ rfl
      rfl⟩

end Recur

namespace Recur

lemma St.updTmpl_occs (σ : St) (i : Nat) (f : Tmpl → Tmpl) :
    (σ.updTmpl i f).occs = σ.occs := rfl

lemma St.getTmpl_setOccs (σ : St) (x : List (Nat × Date)) (i : Nat) :
    ({ σ with occs := x } : St).getTmpl i = σ.getTmpl i := rfl

lemma St.getTmpl_tid {σ : St} {i : Nat} {row : Tmpl}
    (h : σ.getTmpl i = some row) : row.tid = i := by
  have := List.find?_some h
  simpa [beq_iff_eq] using this

lemma find?_tid_map {l : List Tmpl} {i : Nat} {f : Tmpl → Tmpl}
    (hf : ∀ t, (f t).tid = t.tid) :
    (l.map (fun t => if t.tid = i then f t else t)).find?
        (fun t => t.tid == i) =
      (l.find? (fun t => t.tid == i)).map
        (fun t => if t.tid = i then f t else t) := by
  induction l with
  | nil => rfl
  | cons a l ih =>
      by_cases h : a.tid = i
      · have hg : ((if a.tid = i then f a else a).tid == i) = true := by
          rw [if_pos h, hf, h]
          simp
        have ha : (a.tid == i) = true := by simp [h]
        simp only [List.map_cons, List.find?_cons, hg, ha, cond_true,
          Option.map_some']
      · have hg : ((if a.tid = i then f a else a).tid == i) = false := by
          rw [if_neg h]
          simp [h]
        have ha : (a.tid == i) = false := by simp [h]
        simp only [List.map_cons, List.find?_cons, hg, ha, cond_false, ih]

lemma St.getTmpl_updTmpl_self (σ : St) (i : Nat) (f : Tmpl → Tmpl)
    {row : Tmpl} (hf : ∀ t, (f t).tid = t.tid)
    (hrow : σ.getTmpl i = some row) :
    (σ.updTmpl i f).getTmpl i = some (f row) := by
  have hrid : row.tid = i := St.getTmpl_tid hrow
  unfold St.getTmpl at *
  unfold St.updTmpl
  dsimp only
  rw [find?_tid_map hf, hrow, Option.map_some']
  rw [if_pos hrid]

lemma rollbackRecover_tmpls_length (σC : St) (i : Nat) (nd : Date) :
    (rollbackRecover σC i nd).tmpls.length = σC.tmpls.length := by
  unfold rollbackRecover
  repeat' split
  all_goals try dsimp only
  repeat' split
  all_goals simp only [St.updTmpl, List.length_map]

set_option maxHeartbeats 2000000 in
lemma processTemplate_tmpls_length (today : Date) (σC : St) (snap : Tmpl)
    (σ : St) (hl : σC.tmpls.length = σ.tmpls.length) :
    (processTemplate today σC snap σ).tmpls.length = σ.tmpls.length := by
  unfold processTemplate
  dsimp only
  repeat' split
  all_goals
    simp only [St.updTmpl, List.length_map, rollbackRecover_tmpls_length]
  all_goals omega

end Recur


namespace Recur

/-- Stop-evaluation tail of `processTemplate` under the `after` policy:
decrements the countdown on the live row and terminates the series when
it falls to ≤ 0. -/
lemma afterTail_spec (snap : Tmpl) (σ3 : St) (nd : Date) {row : Tmpl}
    (hA : snap.repeat_type = .after)
    (hg3 : σ3.getTmpl snap.tid = some row) :
    ((if untilExceeded snap nd then
        σ3.updTmpl snap.tid
          (fun t => { t with recurring_task := false, next_recurrence_date := none })
      else if snap.repeat_type = .after then
        match σ3.getTmpl snap.tid with
        | some row =>
            let new_left :=
              (if row.recurrence_left ≠ 0 then row.recurrence_left
               else if row.repeat_number ≠ 0 then row.repeat_number
               else 0) - 1
            let σ4 := σ3.updTmpl snap.tid
              (fun t => { t with recurrence_left := new_left })
            if new_left ≤ 0 then
              σ4.updTmpl snap.tid
                (fun t => { t with recurring_task := false, next_recurrence_date := none })
            else σ4
        | none => σ3
      else σ3) : St).occs = σ3.occs ∧
    ∃ t',
      ((if untilExceeded snap nd then
          σ3.updTmpl snap.tid
            (fun t => { t with recurring_task := false, next_recurrence_date := none })
        else if snap.repeat_type = .after then
          match σ3.getTmpl snap.tid with
          | some row =>
              let new_left :=
                (if row.recurrence_left ≠ 0 then row.recurrence_left
                 else if row.repeat_number ≠ 0 then row.repeat_number
                 else 0) - 1
              let σ4 := σ3.updTmpl snap.tid
                (fun t => { t with recurrence_left := new_left })
              if new_left ≤ 0 then
                σ4.updTmpl snap.tid
                  (fun t => { t with recurring_task := false, next_recurrence_date := none })
              else σ4
          | none => σ3
        else σ3) : St).getTmpl snap.tid = some t' ∧
      t'.recurrence_left =
        (if row.recurrence_left ≠ 0 then row.recurrence_left
         else row.repeat_number) - 1 ∧
      (t'.recurrence_left ≤ 0 →
        t'.recurring_task = false ∧ t'.next_recurrence_date = none) ∧
      (0 < t'.recurrence_left →
        t'.recurring_task = row.recurring_task ∧
        t'.next_recurrence_date = row.next_recurrence_date) := by
  have huntil : ¬ untilExceeded snap nd = true := by
    simp [untilExceeded, hA]
  rw [if_neg huntil, if_pos hA, hg3]
  dsimp only
  by_cases hnl : ((if row.recurrence_left ≠ 0 then row.recurrence_left
      else if row.repeat_number ≠ 0 then row.repeat_number else 0) - 1 : Int) ≤ 0
  · rw [if_pos hnl]
    have hg4 := St.getTmpl_updTmpl_self σ3 snap.tid
      (fun t => { t with recurrence_left :=
        (if row.recurrence_left ≠ 0 then row.recurrence_left
         else if row.repeat_number ≠ 0 then row.repeat_number else 0) - 1 })
      (fun _ => rfl) hg3
    have hg5 := St.getTmpl_updTmpl_self _ snap.tid
      (fun t => { t with recurring_task := false, next_recurrence_date := none })
      (fun _ => rfl) hg4
    refine ⟨by simp only [St.updTmpl_occs], _, hg5, ?_, ?_, ?_⟩
    · dsimp only
      by_cases h1 : row.recurrence_left = 0 <;>
        by_cases h2 : row.repeat_number = 0 <;> simp [h1, h2]
    · intro _
      exact ⟨rfl, rfl⟩
    · intro h0
      dsimp only at h0
      omega
  · rw [if_neg hnl]
    have hg4 := St.getTmpl_updTmpl_self σ3 snap.tid
      (fun t => { t with recurrence_left :=
        (if row.recurrence_left ≠ 0 then row.recurrence_left
         else if row.repeat_number ≠ 0 then row.repeat_number else 0) - 1 })
      (fun _ => rfl) hg3
    refine ⟨by simp only [St.updTmpl_occs], _, hg4, ?_, ?_, ?_⟩
    · dsimp only
      by_cases h1 : row.recurrence_left = 0 <;>
        by_cases h2 : row.repeat_number = 0 <;> simp [h1, h2]
    · intro h0
      dsimp only at h0
      omega
    · intro _
      exact ⟨rfl, rfl⟩

lemma processTemplate_after (today : Date) (σC : St) (snap : Tmpl) (σ : St)
    {c nd : Date}
    (hc : snap.next_recurrence_date = some c)
    (hrow : σ.getTmpl snap.tid = some snap)
    (hnd : _get_next_occurrence_date snap c = some nd)
    (hA : snap.repeat_type = .after)
    (hnodup : (snap.tid, c) ∉ σ.occs) :
    (processTemplate today σC snap σ).occs = σ.occs ++ [(snap.tid, c)] ∧
    ∃ t', (processTemplate today σC snap σ).getTmpl snap.tid = some t' ∧
      t'.recurrence_left =
        (if snap.recurrence_left ≠ 0 then snap.recurrence_left
         else snap.repeat_number) - 1 ∧
      (t'.recurrence_left ≤ 0 →
        t'.recurring_task = false ∧ t'.next_recurrence_date = none) ∧
      (0 < t'.recurrence_left →
        t'.recurring_task = snap.recurring_task ∧
        t'.next_recurrence_date = some nd) := by
  by_cases hinit : snap.repeat_type = .after ∧ snap.recurrence_left = 0
  · -- the pre-claim initialization fires
    have hrow1 := St.getTmpl_updTmpl_self σ snap.tid
      (fun t => { t with recurrence_left := snap.repeat_number })
      (fun _ => rfl) hrow
    unfold processTemplate
    rw [if_pos hinit]
    dsimp only
    rw [getNext_left_irrel]
    rw [hc]
    simp only [Option.getD_some]
    rw [hnd]
    dsimp only
    have hclaim : ((σ.updTmpl snap.tid
        (fun t => { t with recurrence_left := snap.repeat_number })).getTmpl
          snap.tid).map Tmpl.next_recurrence_date = some (some c) := by
      rw [hrow1]
      simp [hc]
    rw [if_pos hclaim]
    set S2 := (σ.updTmpl snap.tid
        (fun t => { t with recurrence_left := snap.repeat_number })).updTmpl
      snap.tid (fun t => { t with next_recurrence_date := some nd }) with hS2
    have hocc2 : S2.occs = σ.occs := rfl
    have hrow2 : S2.getTmpl snap.tid =
        some { { snap with recurrence_left := snap.repeat_number } with
          next_recurrence_date := some nd } := by
      rw [hS2]
      exact St.getTmpl_updTmpl_self _ snap.tid
        (fun t => { t with next_recurrence_date := some nd })
        (fun _ => rfl) hrow1
    obtain ⟨-, hL0⟩ := hinit
    have hdup2 : ¬ (snap.tid, c) ∈ S2.occs := by rw [hocc2]; exact hnodup
    rw [if_neg hdup2]
    have hrow3 : ((⟨S2.tmpls, S2.occs ++ [(snap.tid, c)]⟩ : St)).getTmpl
        snap.tid =
        some { { snap with recurrence_left := snap.repeat_number } with
          next_recurrence_date := some nd } := hrow2
    obtain ⟨ho, t', hg, hleft, himp1, himp2⟩ :=
      afterTail_spec snap ⟨S2.tmpls, S2.occs ++ [(snap.tid, c)]⟩ nd hA hrow3
    refine ⟨?_, t', hg, ?_, himp1, ?_⟩
    · rw [ho]
      dsimp only
      rw [hocc2]
    · rw [hleft]
      dsimp only
      rw [hL0]
      by_cases hrn : snap.repeat_number = 0 <;> simp [hrn]
    · intro h0
      obtain ⟨h1, h2⟩ := himp2 h0
      exact ⟨by rw [h1], by rw [h2]⟩
  · -- no initialization: the countdown is non-zero
    unfold processTemplate
    rw [if_neg hinit]
    dsimp only
    rw [hc]
    simp only [Option.getD_some]
    rw [hnd]
    dsimp only
    have hclaim : (σ.getTmpl snap.tid).map Tmpl.next_recurrence_date =
        some (some c) := by
      rw [hrow]
      simp [hc]
    rw [if_pos hclaim]
    set S2 := σ.updTmpl snap.tid
      (fun t => { t with next_recurrence_date := some nd }) with hS2
    have hocc2 : S2.occs = σ.occs := rfl
    have hrow2 : S2.getTmpl snap.tid =
        some { snap with next_recurrence_date := some nd } := by
      rw [hS2]
      exact St.getTmpl_updTmpl_self σ snap.tid
        (fun t => { t with next_recurrence_date := some nd })
        (fun _ => rfl) hrow
    have hdup2 : ¬ (snap.tid, c) ∈ S2.occs := by rw [hocc2]; exact hnodup
    rw [if_neg hdup2]
    have hrow3 : ((⟨S2.tmpls, S2.occs ++ [(snap.tid, c)]⟩ : St)).getTmpl
        snap.tid = some { snap with next_recurrence_date := some nd } :=
      hrow2
    obtain ⟨ho, t', hg, hleft, himp1, himp2⟩ :=
      afterTail_spec snap ⟨S2.tmpls, S2.occs ++ [(snap.tid, c)]⟩ nd hA hrow3
    refine ⟨?_, t', hg, ?_, himp1, ?_⟩
    · rw [ho]
      dsimp only
      rw [hocc2]
    · rw [hleft]
    · intro h0
      obtain ⟨h1, h2⟩ := himp2 h0
      exact ⟨by rw [h1], by rw [h2]⟩

end Recur

namespace Recur

lemma St.getTmpl_updTmpl (σ : St) (i : Nat) (f : Tmpl → Tmpl)
    (hf : ∀ t, (f t).tid = t.tid) :
    (σ.updTmpl i f).getTmpl i =
      (σ.getTmpl i).map (fun t => if t.tid = i then f t else t) := by
  unfold St.getTmpl St.updTmpl
  dsimp only
  exact find?_tid_map hf

/-- Stop-evaluation tail of `processTemplate`, any policy: the cursor
either remains at the freshly claimed `next_recurrence_date`, or the
series was terminated (cursor cleared and recurrence switched off). -/
lemma tail_weak (snap : Tmpl) (σ3 : St) (nd : Date) {row : Tmpl}
    (hg3 : σ3.getTmpl snap.tid = some row)
    (hrownext : row.next_recurrence_date = some nd) :
    ((if untilExceeded snap nd then
        σ3.updTmpl snap.tid
          (fun t => { t with recurring_task := false, next_recurrence_date := none })
      else if snap.repeat_type = .after then
        match σ3.getTmpl snap.tid with
        | some row =>
            let new_left :=
              (if row.recurrence_left ≠ 0 then row.recurrence_left
               else if row.repeat_number ≠ 0 then row.repeat_number
               else 0) - 1
            let σ4 := σ3.updTmpl snap.tid
              (fun t => { t with recurrence_left := new_left })
            if new_left ≤ 0 then
              σ4.updTmpl snap.tid
                (fun t => { t with recurring_task := false, next_recurrence_date := none })
            else σ4
        | none => σ3
      else σ3) : St).occs = σ3.occs ∧
    ∃ t',
      ((if untilExceeded snap nd then
          σ3.updTmpl snap.tid
            (fun t => { t with recurring_task := false, next_recurrence_date := none })
        else if snap.repeat_type = .after then
          match σ3.getTmpl snap.tid with
          | some row =>
              let new_left :=
                (if row.recurrence_left ≠ 0 then row.recurrence_left
                 else if row.repeat_number ≠ 0 then row.repeat_number
                 else 0) - 1
              let σ4 := σ3.updTmpl snap.tid
                (fun t => { t with recurrence_left := new_left })
              if new_left ≤ 0 then
                σ4.updTmpl snap.tid
                  (fun t => { t with recurring_task := false, next_recurrence_date := none })
              else σ4
          | none => σ3
        else σ3) : St).getTmpl snap.tid = some t' ∧
      (t'.next_recurrence_date = some nd ∨
        (t'.next_recurrence_date = none ∧ t'.recurring_task = false)) := by
  by_cases hu : untilExceeded snap nd = true
  · rw [if_pos hu]
    have hg4 := St.getTmpl_updTmpl_self σ3 snap.tid
      (fun t => { t with recurring_task := false, next_recurrence_date := none })
      (fun _ => rfl) hg3
    exact ⟨by simp only [St.updTmpl_occs], _, hg4, Or.inr ⟨rfl, rfl⟩⟩
  · rw [if_neg hu]
    by_cases hA : snap.repeat_type = .after
    · rw [if_pos hA, hg3]
      dsimp only
      by_cases hnl : ((if row.recurrence_left ≠ 0 then row.recurrence_left
          else if row.repeat_number ≠ 0 then row.repeat_number else 0) - 1 :
            Int) ≤ 0
      · rw [if_pos hnl]
        have hg4 := St.getTmpl_updTmpl_self σ3 snap.tid
          (fun t => { t with recurrence_left :=
            (if row.recurrence_left ≠ 0 then row.recurrence_left
             else if row.repeat_number ≠ 0 then row.repeat_number else 0) - 1 })
          (fun _ => rfl) hg3
        have hg5 := St.getTmpl_updTmpl_self _ snap.tid
          (fun t => { t with recurring_task := false, next_recurrence_date := none })
          (fun _ => rfl) hg4
        exact ⟨by simp only [St.updTmpl_occs], _, hg5, Or.inr ⟨rfl, rfl⟩⟩
      · rw [if_neg hnl]
        have hg4 := St.getTmpl_updTmpl_self σ3 snap.tid
          (fun t => { t with recurrence_left :=
            (if row.recurrence_left ≠ 0 then row.recurrence_left
             else if row.repeat_number ≠ 0 then row.repeat_number else 0) - 1 })
          (fun _ => rfl) hg3
        refine ⟨by simp only [St.updTmpl_occs], _, hg4, Or.inl ?_⟩
        dsimp only
        exact hrownext
    · rw [if_neg hA]
      exact ⟨rfl, row, hg3, Or.inl hrownext⟩

/-- Under a successful claim whose occurrence is not yet materialized,
`processTemplate` appends the occurrence and leaves the cursor at the
claimed next date unless the stop evaluation terminated the series. -/
lemma processTemplate_claimed_weak (today : Date) (σC : St) (snap : Tmpl)
    (σ : St) {c nd : Date}
    (hc : snap.next_recurrence_date = some c)
    (hrow : σ.getTmpl snap.tid = some snap)
    (hnd : _get_next_occurrence_date snap c = some nd)
    (hnodup : (snap.tid, c) ∉ σ.occs) :
    (processTemplate today σC snap σ).occs = σ.occs ++ [(snap.tid, c)] ∧
    ∃ t', (processTemplate today σC snap σ).getTmpl snap.tid = some t' ∧
      (t'.next_recurrence_date = some nd ∨
        (t'.next_recurrence_date = none ∧ t'.recurring_task = false)) := by
  by_cases hinit : snap.repeat_type = .after ∧ snap.recurrence_left = 0
  · have hrow1 := St.getTmpl_updTmpl_self σ snap.tid
      (fun t => { t with recurrence_left := snap.repeat_number })
      (fun _ => rfl) hrow
    unfold processTemplate
    rw [if_pos hinit]
    dsimp only
    rw [getNext_left_irrel]
    rw [hc]
    simp only [Option.getD_some]
    rw [hnd]
    dsimp only
    have hclaim : ((σ.updTmpl snap.tid
        (fun t => { t with recurrence_left := snap.repeat_number })).getTmpl
          snap.tid).map Tmpl.next_recurrence_date = some (some c) := by
      rw [hrow1]
      simp [hc]
    rw [if_pos hclaim]
    set S2 := (σ.updTmpl snap.tid
        (fun t => { t with recurrence_left := snap.repeat_number })).updTmpl
      snap.tid (fun t => { t with next_recurrence_date := some nd }) with hS2
    have hocc2 : S2.occs = σ.occs := rfl
    have hrow2 : S2.getTmpl snap.tid =
        some { { snap with recurrence_left := snap.repeat_number } with
          next_recurrence_date := some nd } := by
      rw [hS2]
      exact St.getTmpl_updTmpl_self _ snap.tid
        (fun t => { t with next_recurrence_date := some nd })
        (fun _ => rfl) hrow1
    have hdup2 : ¬ (snap.tid, c) ∈ S2.occs := by rw [hocc2]; exact hnodup
    rw [if_neg hdup2]
    have hrow3 : ((⟨S2.tmpls, S2.occs ++ [(snap.tid, c)]⟩ : St)).getTmpl
        snap.tid =
        some { { snap with recurrence_left := snap.repeat_number } with
          next_recurrence_date := some nd } := hrow2
    obtain ⟨ho, t', hg, hcur⟩ :=
      tail_weak snap ⟨S2.tmpls, S2.occs ++ [(snap.tid, c)]⟩ nd hrow3 rfl
    refine ⟨?_, t', hg, hcur⟩
    rw [ho]
    dsimp only
    rw [hocc2]
  · unfold processTemplate
    rw [if_neg hinit]
    dsimp only
    rw [hc]
    simp only [Option.getD_some]
    rw [hnd]
    dsimp only
    have hclaim : (σ.getTmpl snap.tid).map Tmpl.next_recurrence_date =
        some (some c) := by
      rw [hrow]
      simp [hc]
    rw [if_pos hclaim]
    set S2 := σ.updTmpl snap.tid
      (fun t => { t with next_recurrence_date := some nd }) with hS2
    have hocc2 : S2.occs = σ.occs := rfl
    have hrow2 : S2.getTmpl snap.tid =
        some { snap with next_recurrence_date := some nd } := by
      rw [hS2]
      exact St.getTmpl_updTmpl_self σ snap.tid
        (fun t => { t with next_recurrence_date := some nd })
        (fun _ => rfl) hrow
    have hdup2 : ¬ (snap.tid, c) ∈ S2.occs := by rw [hocc2]; exact hnodup
    rw [if_neg hdup2]
    have hrow3 : ((⟨S2.tmpls, S2.occs ++ [(snap.tid, c)]⟩ : St)).getTmpl
        snap.tid = some { snap with next_recurrence_date := some nd } :=
      hrow2
    obtain ⟨ho, t', hg, hcur⟩ :=
      tail_weak snap ⟨S2.tmpls, S2.occs ++ [(snap.tid, c)]⟩ nd hrow3 rfl
    refine ⟨?_, t', hg, hcur⟩
    rw [ho]
    dsimp only
    rw [hocc2]

/-- Under a successful claim whose insert hits the uniqueness
constraint, `processTemplate` is exactly the post-rollback recovery on
the transaction-start store: the claim advance, the pre-claim countdown
initialization and every other uncommitted write are gone. -/
lemma processTemplate_dup_eq (today : Date) (σC : St) (snap : Tmpl)
    (σ : St) {c nd : Date}
    (hc : snap.next_recurrence_date = some c)
    (hrow : σ.getTmpl snap.tid = some snap)
    (hnd : _get_next_occurrence_date snap c = some nd)
    (hdup : (snap.tid, c) ∈ σ.occs) :
    processTemplate today σC snap σ = rollbackRecover σC snap.tid nd := by
  by_cases hinit : snap.repeat_type = .after ∧ snap.recurrence_left = 0
  · have hrow1 := St.getTmpl_updTmpl_self σ snap.tid
      (fun t => { t with recurrence_left := snap.repeat_number })
      (fun _ => rfl) hrow
    unfold processTemplate
    rw [if_pos hinit]
    dsimp only
    rw [getNext_left_irrel]
    rw [hc]
    simp only [Option.getD_some]
    rw [hnd]
    dsimp only
    have hclaim : ((σ.updTmpl snap.tid
        (fun t => { t with recurrence_left := snap.repeat_number })).getTmpl
          snap.tid).map Tmpl.next_recurrence_date = some (some c) := by
      rw [hrow1]
      simp [hc]
    rw [if_pos hclaim]
    set S2 := (σ.updTmpl snap.tid
        (fun t => { t with recurrence_left := snap.repeat_number })).updTmpl
      snap.tid (fun t => { t with next_recurrence_date := some nd }) with hS2
    have hocc2 : S2.occs = σ.occs := rfl
    have hdup2 : (snap.tid, c) ∈ S2.occs := by rw [hocc2]; exact hdup
    rw [if_pos hdup2]
  · unfold processTemplate
    rw [if_neg hinit]
    dsimp only
    rw [hc]
    simp only [Option.getD_some]
    rw [hnd]
    dsimp only
    have hclaim : (σ.getTmpl snap.tid).map Tmpl.next_recurrence_date =
        some (some c) := by
      rw [hrow]
      simp [hc]
    rw [if_pos hclaim]
    set S2 := σ.updTmpl snap.tid
      (fun t => { t with next_recurrence_date := some nd }) with hS2
    have hocc2 : S2.occs = σ.occs := rfl
    have hdup2 : (snap.tid, c) ∈ S2.occs := by rw [hocc2]; exact hdup
    rw [if_pos hdup2]

/-- Post-rollback stop evaluation, any policy: relative to the
transaction start no occurrence is added, and the row keeps its reverted
cursor unless the evaluation terminated the series. -/
lemma rollback_weak (σC : St) (i : Nat) (nd : Date) {rowC : Tmpl}
    (hrowC : σC.getTmpl i = some rowC) :
    (rollbackRecover σC i nd).occs = σC.occs ∧
    ∃ t', (rollbackRecover σC i nd).getTmpl i = some t' ∧
      (t'.next_recurrence_date = rowC.next_recurrence_date ∨
        (t'.next_recurrence_date = none ∧ t'.recurring_task = false)) := by
  unfold rollbackRecover
  rw [hrowC]
  dsimp only
  by_cases hu : untilExceeded rowC nd = true
  · rw [if_pos hu]
    have hg := St.getTmpl_updTmpl_self σC i
      (fun t => { t with recurring_task := false, next_recurrence_date := none })
      (fun _ => rfl) hrowC
    exact ⟨by simp only [St.updTmpl_occs], _, hg, Or.inr ⟨rfl, rfl⟩⟩
  · rw [if_neg hu]
    by_cases hA : rowC.repeat_type = .after
    · rw [if_pos hA]
      try dsimp only
      by_cases hnl : ((if rowC.recurrence_left ≠ 0 then rowC.recurrence_left
          else if rowC.repeat_number ≠ 0 then rowC.repeat_number
          else 0) - 1 : Int) ≤ 0
      · rw [if_pos hnl]
        have hg4 := St.getTmpl_updTmpl_self σC i
          (fun t => { t with recurrence_left :=
            (if rowC.recurrence_left ≠ 0 then rowC.recurrence_left
             else if rowC.repeat_number ≠ 0 then rowC.repeat_number
             else 0) - 1 })
          (fun _ => rfl) hrowC
        have hg5 := St.getTmpl_updTmpl_self _ i
          (fun t => { t with recurring_task := false, next_recurrence_date := none })
          (fun _ => rfl) hg4
        exact ⟨by simp only [St.updTmpl_occs], _, hg5, Or.inr ⟨rfl, rfl⟩⟩
      · rw [if_neg hnl]
        have hg4 := St.getTmpl_updTmpl_self σC i
          (fun t => { t with recurrence_left :=
            (if rowC.recurrence_left ≠ 0 then rowC.recurrence_left
             else if rowC.repeat_number ≠ 0 then rowC.repeat_number
             else 0) - 1 })
          (fun _ => rfl) hrowC
        exact ⟨by simp only [St.updTmpl_occs], _, hg4, Or.inl rfl⟩
    · rw [if_neg hA]
      exact ⟨rfl, rowC, hrowC, Or.inl rfl⟩

/-- Post-rollback stop evaluation under the `after` policy: the
countdown written is recomputed from the reverted (pre-initialization)
row value and the series is terminated when it falls to ≤ 0. -/
lemma rollback_after (σC : St) (i : Nat) (nd : Date) {rowC : Tmpl}
    (hrowC : σC.getTmpl i = some rowC)
    (hA : rowC.repeat_type = .after) :
    (rollbackRecover σC i nd).occs = σC.occs ∧
    ∃ t', (rollbackRecover σC i nd).getTmpl i = some t' ∧
      t'.recurrence_left =
        (if rowC.recurrence_left ≠ 0 then rowC.recurrence_left
         else rowC.repeat_number) - 1 ∧
      (t'.recurrence_left ≤ 0 →
        t'.recurring_task = false ∧ t'.next_recurrence_date = none) ∧
      (0 < t'.recurrence_left →
        t'.recurring_task = rowC.recurring_task ∧
        t'.next_recurrence_date = rowC.next_recurrence_date) := by
  have huntil : ¬ untilExceeded rowC nd = true := by
    simp [untilExceeded, hA]
  unfold rollbackRecover
  rw [hrowC]
  dsimp only
  rw [if_neg huntil, if_pos hA]
  try dsimp only
  by_cases hnl : ((if rowC.recurrence_left ≠ 0 then rowC.recurrence_left
      else if rowC.repeat_number ≠ 0 then rowC.repeat_number
      else 0) - 1 : Int) ≤ 0
  · rw [if_pos hnl]
    have hg4 := St.getTmpl_updTmpl_self σC i
      (fun t => { t with recurrence_left :=
        (if rowC.recurrence_left ≠ 0 then rowC.recurrence_left
         else if rowC.repeat_number ≠ 0 then rowC.repeat_number
         else 0) - 1 })
      (fun _ => rfl) hrowC
    have hg5 := St.getTmpl_updTmpl_self _ i
      (fun t => { t with recurring_task := false, next_recurrence_date := none })
      (fun _ => rfl) hg4
    refine ⟨by simp only [St.updTmpl_occs], _, hg5, ?_, ?_, ?_⟩
    · dsimp only
      by_cases h1 : rowC.recurrence_left = 0 <;>
        by_cases h2 : rowC.repeat_number = 0 <;> simp [h1, h2]
    · intro _
      exact ⟨rfl, rfl⟩
    · intro h0
      dsimp only at h0
      omega
  · rw [if_neg hnl]
    have hg4 := St.getTmpl_updTmpl_self σC i
      (fun t => { t with recurrence_left :=
        (if rowC.recurrence_left ≠ 0 then rowC.recurrence_left
         else if rowC.repeat_number ≠ 0 then rowC.repeat_number
         else 0) - 1 })
      (fun _ => rfl) hrowC
    refine ⟨by simp only [St.updTmpl_occs], _, hg4, ?_, ?_, ?_⟩
    · dsimp only
      by_cases h1 : rowC.recurrence_left = 0 <;>
        by_cases h2 : rowC.repeat_number = 0 <;> simp [h1, h2]
    · intro h0
      dsimp only at h0
      omega
    · intro _
      exact ⟨rfl, rfl⟩

end Recur

namespace Recur

/-- When the compare-and-set claim fails (the stored cursor no longer
matches the snapshot's), the engine body leaves the store untouched —
except for the pre-claim countdown initialization, which has already
been written when the countdown was unset under the `after` policy. -/
lemma processTemplate_conflict (today : Date) (σC : St) (snap : Tmpl)
    (σ : St) {c nd : Date}
    (hc : snap.next_recurrence_date = some c)
    (hnd : _get_next_occurrence_date snap c = some nd)
    (hconf : (σ.getTmpl snap.tid).map Tmpl.next_recurrence_date ≠
      some (some c)) :
    (processTemplate today σC snap σ).occs = σ.occs ∧
    (¬ (snap.repeat_type = .after ∧ snap.recurrence_left = 0) →
      processTemplate today σC snap σ = σ) ∧
    ((snap.repeat_type = .after ∧ snap.recurrence_left = 0) →
      processTemplate today σC snap σ =
        σ.updTmpl snap.tid
          (fun t => { t with recurrence_left := snap.repeat_number })) ∧
    (∀ row, σ.getTmpl snap.tid = some row →
      ∃ row', (processTemplate today σC snap σ).getTmpl snap.tid = some row' ∧
        row'.next_recurrence_date = row.next_recurrence_date ∧
        row'.recurring_task = row.recurring_task ∧
        row'.is_recurring_template = row.is_recurring_template) := by
  by_cases hinit : snap.repeat_type = .after ∧ snap.recurrence_left = 0
  · have hconf1 : ((σ.updTmpl snap.tid
        (fun t => { t with recurrence_left := snap.repeat_number })).getTmpl
          snap.tid).map Tmpl.next_recurrence_date ≠ some (some c) := by
      rw [St.getTmpl_updTmpl σ snap.tid
        (fun t => { t with recurrence_left := snap.repeat_number })
        (fun _ => rfl)]
      cases hr : σ.getTmpl snap.tid with
      | none => simp
      | some row =>
          have htid : row.tid = snap.tid := St.getTmpl_tid hr
          rw [hr] at hconf
          simp only [Option.map_some', Option.map_map]
          simp only [Option.map_some'] at hconf
          intro hbad
          apply hconf
          rw [← hbad]
          simp [htid]
    unfold processTemplate
    rw [if_pos hinit]
    dsimp only
    rw [getNext_left_irrel]
    rw [hc]
    simp only [Option.getD_some]
    rw [hnd]
    dsimp only
    rw [if_neg hconf1]
    refine ⟨rfl, fun h => absurd hinit h, fun _ => rfl, ?_⟩
    intro row hr
    have := St.getTmpl_updTmpl_self σ snap.tid
      (fun t => { t with recurrence_left := snap.repeat_number })
      (fun _ => rfl) hr
    exact ⟨_, this, rfl, rfl, rfl⟩
  · unfold processTemplate
    rw [if_neg hinit]
    dsimp only
    rw [hc]
    simp only [Option.getD_some]
    rw [hnd]
    dsimp only
    rw [if_neg hconf]
    refine ⟨rfl, fun _ => rfl, fun h => absurd h hinit, ?_⟩
    intro row hr
    exact ⟨row, hr, rfl, rfl, rfl⟩

end Recur

namespace Recur

def tForever : Tmpl :=
  ⟨1, true, true, 1, .day, false, false, false, false, false, false, false,
    none, .forever, none, 0, some ⟨2, 1, 10⟩, 0⟩

def σdup : St := ⟨[tForever], [(1, ⟨2, 1, 10⟩)]⟩

/-- C4 (counterexample): the claimed cursor advance is NOT left in place
when the insert hits the uniqueness constraint.  A forever-policy
template whose due occurrence already exists claims successfully
(advancing the cursor from 0002-01-10 to the computed next 0002-01-11),
hits the duplicate on insert, and the handler's `cr.rollback()` reverts
the whole transaction: the final store equals the transaction-start
store, with the cursor back at 0002-01-10 — not at the claimed next
date. -/
theorem duplicate_rollback_counterexample :
    tForever.next_recurrence_date = some ⟨2, 1, 10⟩ ∧
    _get_next_occurrence_date tForever ⟨2, 1, 10⟩ = some ⟨2, 1, 11⟩ ∧
    (1, (⟨2, 1, 10⟩ : Date)) ∈ σdup.occs ∧
    processTemplate ⟨2, 1, 10⟩ σdup tForever σdup = σdup ∧
    (σdup.getTmpl 1).map Tmpl.next_recurrence_date =
      some (some ⟨2, 1, 10⟩) :=
  ⟨rfl, by decide, by decide, by decide, by decide⟩

/-- C4 (amended): when the child insert after a successful claim hits
the uniqueness constraint on (templateRef, occurrenceDate), no exception
escapes and processing continues into the stop evaluation, and no
occurrence is added relative to the transaction start — but the claimed
cursor advance is NOT left in place: `cr.rollback()` reverts the whole
transaction (the claim UPDATE and any pre-claim countdown
initialization included), so the cursor ends back at the
transaction-start occurrence date — never at the claimed next date —
unless the post-rollback stop evaluation terminates the series (cursor
none, recurrence off). -/
theorem duplicate_occurrence_rolls_back (today : Date) (σC : St)
    (snap : Tmpl) (σ : St) (c nd : Date) (rowC : Tmpl)
    (hc : snap.next_recurrence_date = some c)
    (hcv : c.Valid)
    (hv : _is_recurrence_valid snap = true)
    (hrow : σ.getTmpl snap.tid = some snap)
    (hnd : _get_next_occurrence_date snap c = some nd)
    (hdup : (snap.tid, c) ∈ σ.occs)
    (hrowC : σC.getTmpl snap.tid = some rowC)
    (hCc : rowC.next_recurrence_date = some c) :
    (processTemplate today σC snap σ).occs = σC.occs ∧
    ∃ t', (processTemplate today σC snap σ).getTmpl snap.tid = some t' ∧
      t'.next_recurrence_date ≠ some nd ∧
      (t'.next_recurrence_date = some c ∨
        (t'.next_recurrence_date = none ∧ t'.recurring_task = false)) := by
  obtain ⟨-, -, hmask⟩ := isRecurrenceValid_fields hv
  obtain ⟨nd', hnd', hlt, -⟩ := next_strictly_after_core snap c hcv hmask
  rw [hnd] at hnd'
  have hndeq : nd' = nd := by
    injection hnd' with h
    exact h.symm
  rw [hndeq] at hlt
  have hne : (some c : Option Date) ≠ some nd := by
    intro h
    injection h with h'
    rw [h'] at hlt
    omega
  rw [processTemplate_dup_eq today σC snap σ hc hrow hnd hdup]
  obtain ⟨ho, t', hg, hcur⟩ := rollback_weak σC snap.tid nd hrowC
  refine ⟨ho, t', hg, ?_, ?_⟩
  · rcases hcur with h | ⟨h, -⟩
    · rw [h, hCc]
      exact hne
    · rw [h]
      exact fun hbad => Option.noConfusion hbad
  · rcases hcur with h | ⟨h1, h2⟩
    · exact Or.inl (by rw [h, hCc])
    · exact Or.inr ⟨h1, h2⟩

theorem duplicate_occurrence_rolls_back_witness :
    (processTemplate ⟨2, 1, 10⟩ σdup tForever σdup).occs = σdup.occs ∧
    ∃ t', (processTemplate ⟨2, 1, 10⟩ σdup tForever σdup).getTmpl 1 =
        some t' ∧
      t'.next_recurrence_date ≠ some ⟨2, 1, 11⟩ ∧
      (t'.next_recurrence_date = some ⟨2, 1, 10⟩ ∨
        (t'.next_recurrence_date = none ∧ t'.recurring_task = false)) :=
  duplicate_occurrence_rolls_back ⟨2, 1, 10⟩ σdup tForever σdup
    ⟨2, 1, 10⟩ ⟨2, 1, 11⟩ tForever rfl (by decide) (by decide) (by decide)
    (by decide) (by decide) (by decide) rfl

def tConf : Tmpl :=
  ⟨1, true, true, 1, .day, false, false, false, false, false, false, false,
    none, .after, none, 5, some ⟨2, 1, 10⟩, 0⟩

def σConf : St :=
  ⟨[{ tConf with next_recurrence_date := some ⟨2, 1, 11⟩ }], []⟩

/-- C5 (counterexample): on a claim conflict the engine is not entirely
write-free for the template: the snapshot had `repeat_type = after` and
an unset countdown, so the pre-claim initialization already wrote
`recurrence_left := repeat_number` before the claim failed — the stored
row's countdown changed from 0 to 5 even though the claim was lost. -/
theorem claim_conflict_counterexample :
    tConf.recurrence_left = 0 ∧
    ({ tConf with next_recurrence_date := some ⟨2, 1, 11⟩} :
        Tmpl).next_recurrence_date ≠ tConf.next_recurrence_date ∧
    (processTemplate ⟨2, 1, 10⟩ σConf tConf σConf).occs = [] ∧
    (processTemplate ⟨2, 1, 10⟩ σConf tConf σConf).getTmpl 1 =
      some { tConf with next_recurrence_date := some ⟨2, 1, 11⟩, recurrence_left := 5 } := by
  refine ⟨rfl, by decide, ?_, ?_⟩ <;> decide

/-- C5 (amended): on a claim conflict the engine creates no occurrence
and leaves the cursor and active flag unchanged; the store is in fact
entirely unchanged unless the snapshot's countdown was unset (0) under
the `after` policy, in which case the only change is the pre-claim
initialization `recurrence_left := repeat_number`. -/
theorem claim_conflict_skips (today : Date) (σC : St) (snap : Tmpl)
    (σ : St) (c nd : Date)
    (hc : snap.next_recurrence_date = some c)
    (hnd : _get_next_occurrence_date snap c = some nd)
    (hconf : (σ.getTmpl snap.tid).map Tmpl.next_recurrence_date ≠
      some (some c)) :
    (processTemplate today σC snap σ).occs = σ.occs ∧
    (¬ (snap.repeat_type = .after ∧ snap.recurrence_left = 0) →
      processTemplate today σC snap σ = σ) ∧
    ((snap.repeat_type = .after ∧ snap.recurrence_left = 0) →
      processTemplate today σC snap σ =
        σ.updTmpl snap.tid
          (fun t => { t with recurrence_left := snap.repeat_number })) ∧
    (∀ row, σ.getTmpl snap.tid = some row →
      ∃ row', (processTemplate today σC snap σ).getTmpl snap.tid = some row' ∧
        row'.next_recurrence_date = row.next_recurrence_date ∧
        row'.recurring_task = row.recurring_task ∧
        row'.is_recurring_template = row.is_recurring_template) :=
  processTemplate_conflict today σC snap σ hc hnd hconf

theorem claim_conflict_skips_witness :
    (processTemplate ⟨2, 1, 10⟩ σConf tConf σConf).occs = σConf.occs ∧
    processTemplate ⟨2, 1, 10⟩ σConf tConf σConf =
      σConf.updTmpl tConf.tid
        (fun t => { t with recurrence_left := tConf.repeat_number }) ∧
    ∃ row', (processTemplate ⟨2, 1, 10⟩ σConf tConf σConf).getTmpl tConf.tid =
        some row' ∧
      row'.next_recurrence_date =
        ({ tConf with next_recurrence_date := some ⟨2, 1, 11⟩} :
          Tmpl).next_recurrence_date ∧
      row'.recurring_task =
        ({ tConf with next_recurrence_date := some ⟨2, 1, 11⟩} :
          Tmpl).recurring_task ∧
      row'.is_recurring_template =
        ({ tConf with next_recurrence_date := some ⟨2, 1, 11⟩} :
          Tmpl).is_recurring_template :=
  ⟨(claim_conflict_skips ⟨2, 1, 10⟩ σConf tConf σConf ⟨2, 1, 10⟩ ⟨2, 1, 11⟩ rfl
      (by decide) (by decide)).1,
    (claim_conflict_skips ⟨2, 1, 10⟩ σConf tConf σConf ⟨2, 1, 10⟩ ⟨2, 1, 11⟩ rfl
      (by decide) (by decide)).2.2.1 ⟨rfl, rfl⟩,
    (claim_conflict_skips ⟨2, 1, 10⟩ σConf tConf σConf ⟨2, 1, 10⟩ ⟨2, 1, 11⟩ rfl
      (by decide) (by decide)).2.2.2
      { tConf with next_recurrence_date := some ⟨2, 1, 11⟩ } (by decide)⟩

/-- C6: under the `after` policy, a template with one remaining
repetition and a due cursor produces exactly one more occurrence and is
then terminated: the countdown is decremented to 0, the recurrence flag
is cleared, and the cursor is set to none. -/
theorem after_remaining_one_terminates (today : Date) (σC : St)
    (snap : Tmpl) (σ : St) (c nd : Date)
    (hc : snap.next_recurrence_date = some c)
    (hrow : σ.getTmpl snap.tid = some snap)
    (hnd : _get_next_occurrence_date snap c = some nd)
    (hA : snap.repeat_type = .after)
    (hone : snap.recurrence_left = 1)
    (hnodup : (snap.tid, c) ∉ σ.occs) :
    (processTemplate today σC snap σ).occs = σ.occs ++ [(snap.tid, c)] ∧
    ∃ t', (processTemplate today σC snap σ).getTmpl snap.tid = some t' ∧
      t'.recurrence_left = 0 ∧
      t'.recurring_task = false ∧
      t'.next_recurrence_date = none := by
  obtain ⟨ho, t', hg, hleft, himp1, -⟩ :=
    processTemplate_after today σC snap σ hc hrow hnd hA hnodup
  have hl : t'.recurrence_left = 0 := by
    rw [hleft, hone]
    simp
  obtain ⟨hrt, hnx⟩ := himp1 (by rw [hl])
  exact ⟨ho, t', hg, hl, hrt, hnx⟩

def tAfterOne : Tmpl :=
  ⟨1, true, true, 1, .day, false, false, false, false, false, false, false,
    none, .after, none, 3, some ⟨2, 1, 10⟩, 1⟩

theorem after_remaining_one_terminates_witness :
    (processTemplate ⟨2, 1, 10⟩ ⟨[tAfterOne], []⟩ tAfterOne
        ⟨[tAfterOne], []⟩).occs = [] ++ [(1, ⟨2, 1, 10⟩)] ∧
    ∃ t', (processTemplate ⟨2, 1, 10⟩ ⟨[tAfterOne], []⟩ tAfterOne
        ⟨[tAfterOne], []⟩).getTmpl 1 = some t' ∧
      t'.recurrence_left = 0 ∧
      t'.recurring_task = false ∧
      t'.next_recurrence_date = none :=
  after_remaining_one_terminates ⟨2, 1, 10⟩ ⟨[tAfterOne], []⟩ tAfterOne
    ⟨[tAfterOne], []⟩ ⟨2, 1, 10⟩ ⟨2, 1, 11⟩ rfl (by decide) (by decide) rfl
    rfl (by decide)

/-- C10: after a successful claim under the `after` policy the countdown
is decremented — and the series terminated when it reaches ≤ 0 —
regardless of whether a new occurrence record was created.  On the
normal path the live row's countdown is decremented after the insert;
on the duplicate path `cr.rollback()` first reverts the claim and the
pre-claim initialization, after which the stop evaluation recomputes
`(recurrence_left or repeat_number or 0) - 1` from the reverted row —
numerically the same countdown either way (the difference the rollback
makes is the reverted cursor, C4). -/
theorem after_decrement_regardless (today : Date) (σC : St) (snap : Tmpl)
    (σ : St) (c nd : Date)
    (hc : snap.next_recurrence_date = some c)
    (hrow : σ.getTmpl snap.tid = some snap)
    (hrowC : σC.getTmpl snap.tid = some snap)
    (hnd : _get_next_occurrence_date snap c = some nd)
    (hA : snap.repeat_type = .after) :
    ∃ t', (processTemplate today σC snap σ).getTmpl snap.tid = some t' ∧
      t'.recurrence_left =
        (if snap.recurrence_left ≠ 0 then snap.recurrence_left
         else snap.repeat_number) - 1 ∧
      (t'.recurrence_left ≤ 0 →
        t'.recurring_task = false ∧ t'.next_recurrence_date = none) ∧
      ((snap.tid, c) ∈ σ.occs →
        (processTemplate today σC snap σ).occs = σC.occs) ∧
      ((snap.tid, c) ∉ σ.occs →
        (processTemplate today σC snap σ).occs =
          σ.occs ++ [(snap.tid, c)]) := by
  by_cases hdup : (snap.tid, c) ∈ σ.occs
  · rw [processTemplate_dup_eq today σC snap σ hc hrow hnd hdup]
    obtain ⟨ho, t', hg, hleft, himp1, -⟩ :=
      rollback_after σC snap.tid nd hrowC hA
    exact ⟨t', hg, hleft, himp1, fun _ => ho, fun h => absurd hdup h⟩
  · obtain ⟨ho, t', hg, hleft, himp1, -⟩ :=
      processTemplate_after today σC snap σ hc hrow hnd hA hdup
    exact ⟨t', hg, hleft, himp1, fun h => absurd h hdup, fun _ => ho⟩

def tAfterTwo : Tmpl :=
  ⟨1, true, true, 1, .day, false, false, false, false, false, false, false,
    none, .after, none, 9, some ⟨2, 1, 10⟩, 2⟩

def σAfterTwo : St := ⟨[tAfterTwo], [(1, ⟨2, 1, 10⟩)]⟩

theorem after_decrement_regardless_witness :
    ∃ t', (processTemplate ⟨2, 1, 10⟩ σAfterTwo tAfterTwo
        σAfterTwo).getTmpl 1 = some t' ∧
      t'.recurrence_left =
        (if tAfterTwo.recurrence_left ≠ 0 then tAfterTwo.recurrence_left
         else tAfterTwo.repeat_number) - 1 ∧
      (t'.recurrence_left ≤ 0 →
        t'.recurring_task = false ∧ t'.next_recurrence_date = none) ∧
      ((1, (⟨2, 1, 10⟩ : Date)) ∈ σAfterTwo.occs →
        (processTemplate ⟨2, 1, 10⟩ σAfterTwo tAfterTwo σAfterTwo).occs =
          σAfterTwo.occs) ∧
      ((1, (⟨2, 1, 10⟩ : Date)) ∉ σAfterTwo.occs →
        (processTemplate ⟨2, 1, 10⟩ σAfterTwo tAfterTwo σAfterTwo).occs =
          σAfterTwo.occs ++ [(1, ⟨2, 1, 10⟩)]) :=
  after_decrement_regardless ⟨2, 1, 10⟩ σAfterTwo tAfterTwo σAfterTwo
    ⟨2, 1, 10⟩ ⟨2, 1, 11⟩ rfl (by decide) (by decide) (by decide) rfl

end Recur

namespace Recur

lemma St.tmpls_eq_singleton {σ' : St} {i : Nat} {t' : Tmpl}
    (hlen : σ'.tmpls.length = 1) (hg : σ'.getTmpl i = some t') :
    σ'.tmpls = [t'] := by
  unfold St.getTmpl at hg
  rcases hl : σ'.tmpls with _ | ⟨x, _ | ⟨y, rest⟩⟩
  · rw [hl] at hlen
    simp at hlen
  · rw [hl] at hg
    cases hp : (x.tid == i)
    · simp [List.find?_cons, hp] at hg
    · simp [List.find?_cons, hp] at hg
      rw [hg]
  · rw [hl] at hlen
    simp at hlen

lemma cron_pass_no_due (today : Date) (σ : St)
    (h : ∀ x ∈ σ.tmpls, dueToday today x = false) :
    _cron_create_recurring_tasks today σ = σ := by
  unfold _cron_create_recurring_tasks
  have hf : σ.tmpls.filter (dueToday today) = [] := by
    rw [List.filter_eq_nil_iff]
    intro a ha
    simp [h a ha]
  dsimp only
  rw [hf]
  rfl

lemma cron_singleton (today : Date) (t : Tmpl) (occs : List (Nat × Date))
    (hdue : dueToday today t = true) :
    _cron_create_recurring_tasks today ⟨[t], occs⟩ =
      processTemplate today ⟨[t], occs⟩ t ⟨[t], occs⟩ := by
  have hg : (⟨[t], occs⟩ : St).getTmpl t.tid = some t := by
    unfold St.getTmpl
    simp [List.find?_cons]
  unfold _cron_create_recurring_tasks
  dsimp only
  have hf : ([t] : List Tmpl).filter (dueToday today) = [t] := by
    simp [List.filter, hdue]
  rw [hf]
  simp only [List.map_cons, List.map_nil, List.foldl_cons, List.foldl_nil,
    hg]

def tCatchup : Tmpl :=
  ⟨1, true, true, 1, .day, false, false, false, false, false, false, false,
    none, .forever, none, 0, some ⟨2, 1, 8⟩, 0⟩

/-- C3 (counterexample): with an overdue cursor (catch-up lag), the
second of two immediately consecutive passes at the same date selects
the template again — the advanced cursor is still ≤ today — claims
successfully, and creates a second occurrence, so the two passes
materialize two occurrences for one template. -/
theorem run_pass_twice_counterexample :
    (_cron_create_recurring_tasks ⟨2, 1, 10⟩ ⟨[tCatchup], []⟩).occs =
      [(1, ⟨2, 1, 8⟩)] ∧
    (_cron_create_recurring_tasks ⟨2, 1, 10⟩
        (_cron_create_recurring_tasks ⟨2, 1, 10⟩ ⟨[tCatchup], []⟩)).occs =
      [(1, ⟨2, 1, 8⟩), (1, ⟨2, 1, 9⟩)] :=
  ⟨by decide, by decide⟩

/-- C3 (amended): two immediately consecutive passes at the same date
produce at most one new occurrence for a template whose cursor is due
exactly today (not overdue) and whose occurrence for today is not
already materialized: the first pass advances the cursor strictly past
today or terminates the series, so the second pass no longer selects
the template and is a complete no-op on the store.  (For overdue
cursors each pass materializes one catch-up occurrence, as the
counterexample shows; and when today's occurrence already exists, the
duplicate-rollback path keeps the cursor due, so consecutive passes keep
re-claiming — see C4.) -/
theorem second_pass_creates_nothing (today : Date) (t : Tmpl)
    (occs : List (Nat × Date))
    (hday : today.Valid)
    (hrec : t.recurring_task = true)
    (htpl : t.is_recurring_template = true)
    (hcur : t.next_recurrence_date = some today)
    (hval : _is_recurrence_valid t = true)
    (hnodup : (t.tid, today) ∉ occs) :
    _cron_create_recurring_tasks today
        (_cron_create_recurring_tasks today ⟨[t], occs⟩) =
      _cron_create_recurring_tasks today ⟨[t], occs⟩ ∧
    (_cron_create_recurring_tasks today ⟨[t], occs⟩).occs.length ≤
      occs.length + 1 := by
  obtain ⟨-, -, hmask⟩ := isRecurrenceValid_fields hval
  obtain ⟨nd, hnd, hlt, -⟩ := next_strictly_after_core t today hday hmask
  have hdue : dueToday today t = true := by
    simp [dueToday, hrec, htpl, hcur]
  have hg : (⟨[t], occs⟩ : St).getTmpl t.tid = some t := by
    unfold St.getTmpl
    simp [List.find?_cons]
  rw [cron_singleton today t occs hdue]
  obtain ⟨ho, t', hgt, hcurd⟩ :=
    processTemplate_claimed_weak today ⟨[t], occs⟩ t ⟨[t], occs⟩ hcur hg
      hnd hnodup
  have hlen : (processTemplate today ⟨[t], occs⟩ t
      ⟨[t], occs⟩).tmpls.length = 1 := by
    rw [processTemplate_tmpls_length today ⟨[t], occs⟩ t ⟨[t], occs⟩ rfl]
    rfl
  have htm : (processTemplate today ⟨[t], occs⟩ t ⟨[t], occs⟩).tmpls =
      [t'] :=
    St.tmpls_eq_singleton hlen hgt
  have hnotdue : dueToday today t' = false := by
    unfold dueToday
    rcases hcurd with h | ⟨h, hrt⟩
    · rw [h]
      have hne : ¬ nd.toN ≤ today.toN := by omega
      simp [hne]
    · rw [h, hrt]
      simp
  refine ⟨?_, ?_⟩
  · apply cron_pass_no_due
    intro x hx
    rw [htm] at hx
    simp only [List.mem_singleton] at hx
    rw [hx]
    exact hnotdue
  · rw [ho]
    simp

def tToday : Tmpl :=
  ⟨1, true, true, 1, .day, false, false, false, false, false, false, false,
    none, .forever, none, 0, some ⟨2, 1, 10⟩, 0⟩

theorem second_pass_creates_nothing_witness :
    _cron_create_recurring_tasks ⟨2, 1, 10⟩
        (_cron_create_recurring_tasks ⟨2, 1, 10⟩ ⟨[tToday], []⟩) =
      _cron_create_recurring_tasks ⟨2, 1, 10⟩ ⟨[tToday], []⟩ ∧
    (_cron_create_recurring_tasks ⟨2, 1, 10⟩
        ⟨[tToday], []⟩).occs.length ≤ List.length ([] : List (Nat × Date)) + 1 :=
  second_pass_creates_nothing ⟨2, 1, 10⟩ tToday [] (by decide) rfl rfl rfl
    (by decide) (by decide)

end Recur
